import Mathlib

/-!
Verification development for the Promtior RAG question-answering service.

The definitions below are a shallow embedding of the answer-generation
pipeline of the repository:
  * `src/promtior_assistant/domain/services/validators.py`
    (`InputValidator.validate`, `OutputValidator.validate`),
  * `src/promtior_assistant/application/use_cases/answer_question.py`
    (`AnswerQuestionUseCase._build_prompt`, `AnswerQuestionUseCase.execute`),
  * `src/promtior_assistant/presentation/api/v1/routes.py` (`ask_question`).

Strings are modelled as `List Char`.  Python character classes
(`str.strip` whitespace, regex `\s`, `\w`, `\d`, `.`, `str.lower`,
`re.IGNORECASE`) are modelled over their ASCII meaning; every concrete
input used in a theorem below is ASCII, where the model agrees with
Python exactly.  Python raising an exception is modelled by `Except.error`.
The external collaborators (`vector_store.retrieve_documents`,
`llm.generate`) are modelled as call-indexed oracles, and `execute`
additionally returns the trace of collaborator calls and backoff sleeps
it performed, so that counting and ordering claims can be stated.
-/

/-- ASCII lowercasing, the model of Python `str.lower()` (and of
`re.IGNORECASE` folding) restricted to ASCII. -/
def asciiLower (c : Char) : Char :=
  match c with
  | 'A' => 'a' | 'B' => 'b' | 'C' => 'c' | 'D' => 'd' | 'E' => 'e'
  | 'F' => 'f' | 'G' => 'g' | 'H' => 'h' | 'I' => 'i' | 'J' => 'j'
  | 'K' => 'k' | 'L' => 'l' | 'M' => 'm' | 'N' => 'n' | 'O' => 'o'
  | 'P' => 'p' | 'Q' => 'q' | 'R' => 'r' | 'S' => 's' | 'T' => 't'
  | 'U' => 'u' | 'V' => 'v' | 'W' => 'w' | 'X' => 'x' | 'Y' => 'y'
  | 'Z' => 'z'
  | c => c

/-- ASCII whitespace: the characters stripped by Python `str.strip()` and
matched by the regex class `\s` (space, tab, newline, carriage return,
vertical tab, form feed). -/
def wsC (c : Char) : Bool :=
  c = ' ' || c = '\t' || c = '\n' || c = '\r' || c = Char.ofNat 11 || c = Char.ofNat 12

/-- ASCII word characters, the regex class `\w`. -/
def wdC (c : Char) : Bool :=
  c.isAlphanum || c = '_'

/-- ASCII digits, the regex class `\d`. -/
def dgC (c : Char) : Bool :=
  c.isDigit

/-- The regex class `.` (any character except newline). -/
def anyC (c : Char) : Bool :=
  !(c = '\n')

/-- Model of Python `str.strip()`: drop leading and trailing whitespace. -/
def pyStrip (l : List Char) : List Char :=
  (((l.dropWhile wsC).reverse.dropWhile wsC)).reverse

/-- Tokens of the small regex fragment used by the validators' patterns:
case-insensitive literals, single-character classes, and star/plus over a
character class. -/
inductive Tok where
  | lit : Char → Tok
  | cls : (Char → Bool) → Tok
  | star : (Char → Bool) → Tok
  | plus : (Char → Bool) → Tok

/-- Match zero or more characters satisfying `f`, then the continuation
`k`, anywhere along the way (existential semantics, as `re.search` only
asks whether some match exists). -/
def matchStar (f : Char → Bool) (k : List Char → Bool) : List Char → Bool
  | [] => k []
  | x :: xs => k (x :: xs) || (f x && matchStar f k xs)

/-- Match a token list against a prefix of the character list.  Literal
tokens compare case-insensitively (the patterns are compiled with
`re.IGNORECASE`, with lowercase sources). -/
def matchToks : List Tok → List Char → Bool
  | [], _ => true
  | Tok.lit c :: ts, xs =>
    match xs with
    | [] => false
    | x :: xs' => (asciiLower x == c) && matchToks ts xs'
  | Tok.cls f :: ts, xs =>
    match xs with
    | [] => false
    | x :: xs' => f x && matchToks ts xs'
  | Tok.star f :: ts, xs => matchStar f (fun l => matchToks ts l) xs
  | Tok.plus f :: ts, xs =>
    match xs with
    | [] => false
    | x :: xs' => f x && matchStar f (fun l => matchToks ts l) xs'

/-- Model of `re.search(pattern, s)` returning a match: the pattern
matches starting at some position of `s`. -/
def hasMatch (ts : List Tok) : List Char → Bool
  | [] => matchToks ts []
  | c :: l => matchToks ts (c :: l) || hasMatch ts l

/-- A literal word as a token list. -/
def litToks (s : List Char) : List Tok :=
  s.map Tok.lit

/-- A compiled pattern together with its regex source text (the source
text is interpolated into the `OutputValidator` error message). -/
structure Pat where
  toks : List Tok
  src : List Char

/-- The pattern `<script`. -/
def patScript : Pat := ⟨litToks "<script".toList, "<script".toList⟩

/-- The pattern `javascript:`. -/
def patJs : Pat := ⟨litToks "javascript:".toList, "javascript:".toList⟩

/-- The pattern `on\w+\s*=` (inline event handlers). -/
def patOn : Pat :=
  ⟨litToks "on".toList ++ [Tok.plus wdC, Tok.star wsC, Tok.lit '='], "on\\w+\\s*=".toList⟩

/-- The pattern `import\s+`. -/
def patImport : Pat :=
  ⟨litToks "import".toList ++ [Tok.plus wsC], "import\\s+".toList⟩

/-- The pattern `exec\s*\(`. -/
def patExec : Pat :=
  ⟨litToks "exec".toList ++ [Tok.star wsC, Tok.lit '('], "exec\\s*\\(".toList⟩

/-- The pattern `eval\s*\(`. -/
def patEval : Pat :=
  ⟨litToks "eval".toList ++ [Tok.star wsC, Tok.lit '('], "eval\\s*\\(".toList⟩

/-- `InputValidator.FORBIDDEN_PATTERNS`, in source order. -/
def FORBIDDEN_PATTERNS : List Pat :=
  [patScript, patJs, patOn, patImport, patExec, patEval]

/-- Whether some forbidden pattern matches somewhere in `l`
(`re.search(pattern, question, re.IGNORECASE)` over the denylist). -/
def anyForbidden (l : List Char) : Bool :=
  FORBIDDEN_PATTERNS.any fun p => hasMatch p.toks l

/-- The double-quote character. -/
def dqC : Char := Char.ofNat 34

/-- The single-quote character. -/
def sqC : Char := Char.ofNat 39

/-- The five characters replaced by Python `html.escape` (with its
default `quote=True`). -/
def Bset : List Char := ['&', '<', '>', dqC, sqC]

/-- Per-character replacement performed by `html.escape`. -/
def escChar (c : Char) : List Char :=
  if c = '&' then "&amp;".toList
  else if c = '<' then "&lt;".toList
  else if c = '>' then "&gt;".toList
  else if c = dqC then "&quot;".toList
  else if c = sqC then ('&' :: '#' :: 'x' :: '2' :: '7' :: ';' :: [])
  else [c]

/-- Model of Python `html.escape(s)` (quote=True): the successive
`str.replace` calls amount to this per-character substitution. -/
def htmlEscape : List Char → List Char
  | [] => []
  | c :: l => escChar c ++ htmlEscape l

/-- Errors of the pipeline.  `invalidInput` and `invalidOutput` model the
`ValueError`s raised by the two validators (the spec's
`InvalidInputError` / `InvalidOutputError`); `providerError` models any
exception raised by a collaborator; `exhausted` models the final
`Exception` raised after all retries fail, carrying the last recorded
error (the spec's `GenerationExhaustedError`); `pyNone` models the
initial `last_error = None` (unreachable while `maxRetries > 0`). -/
inductive RagError where
  | invalidInput : List Char → RagError
  | invalidOutput : List Char → RagError
  | providerError : List Char → RagError
  | exhausted : RagError → RagError
  | pyNone : RagError
deriving DecidableEq, Repr

/-- Model of `InputValidator.validate` (validators.py lines 22-52). -/
def inputValidate (q : List Char) : Except RagError (List Char) :=
  if q.isEmpty || (pyStrip q).isEmpty then
    .error (.invalidInput "Question cannot be empty".toList)
  else if (pyStrip q).length < 3 then
    .error (.invalidInput "Question too short (min 3 chars)".toList)
  else if (pyStrip q).length > 2000 then
    .error (.invalidInput "Question too long (max 2000 chars)".toList)
  else if anyForbidden (pyStrip q) then
    .error (.invalidInput "Question contains forbidden patterns".toList)
  else
    .ok (htmlEscape (pyStrip q))

/-- The bracketed-placeholder pattern `\[insert.*\]`. -/
def patInsert : Pat :=
  ⟨Tok.lit '[' :: litToks "insert".toList ++ [Tok.star anyC, Tok.lit ']'],
   "\\[insert.*\\]".toList⟩

/-- The pattern `\[.*date.*\]`. -/
def patDate : Pat :=
  ⟨Tok.lit '[' :: Tok.star anyC :: litToks "date".toList ++ [Tok.star anyC, Tok.lit ']'],
   "\\[.*date.*\\]".toList⟩

/-- The pattern `\[.*year.*\]`. -/
def patYear : Pat :=
  ⟨Tok.lit '[' :: Tok.star anyC :: litToks "year".toList ++ [Tok.star anyC, Tok.lit ']'],
   "\\[.*year.*\\]".toList⟩

/-- The pattern `\[.*number.*\]`. -/
def patNumber : Pat :=
  ⟨Tok.lit '[' :: Tok.star anyC :: litToks "number".toList ++ [Tok.star anyC, Tok.lit ']'],
   "\\[.*number.*\\]".toList⟩

/-- The pattern `\[\d\x7b4\x7d\]` (a bracketed four-digit token). -/
def patYear4 : Pat :=
  ⟨[Tok.lit '[', Tok.cls dgC, Tok.cls dgC, Tok.cls dgC, Tok.cls dgC, Tok.lit ']'],
   "\\[\\d\x7b4\x7d\\]".toList⟩

/-- The literal pattern `according to my knowledge`. -/
def patAcc : Pat :=
  ⟨litToks "according to my knowledge".toList, "according to my knowledge".toList⟩

/-- The literal pattern `based on my knowledge`. -/
def patBased : Pat :=
  ⟨litToks "based on my knowledge".toList, "based on my knowledge".toList⟩

/-- The literal pattern `my training data`. -/
def patTraining : Pat :=
  ⟨litToks "my training data".toList, "my training data".toList⟩

/-- The alternation `as an AI (model|assistant|language model)`, expanded
into its three literal branches sharing one source text. -/
def patAsAnAi1 : Pat :=
  ⟨litToks "as an ai model".toList, "as an AI (model|assistant|language model)".toList⟩

/-- Second branch of `as an AI (model|assistant|language model)`. -/
def patAsAnAi2 : Pat :=
  ⟨litToks "as an ai assistant".toList, "as an AI (model|assistant|language model)".toList⟩

/-- Third branch of `as an AI (model|assistant|language model)`. -/
def patAsAnAi3 : Pat :=
  ⟨litToks "as an ai language model".toList,
   "as an AI (model|assistant|language model)".toList⟩

/-- First branch of `I am (an AI|a language model)`. -/
def patIAm1 : Pat :=
  ⟨litToks "i am an ai".toList, "I am (an AI|a language model)".toList⟩

/-- Second branch of `I am (an AI|a language model)`. -/
def patIAm2 : Pat :=
  ⟨litToks "i am a language model".toList, "I am (an AI|a language model)".toList⟩

/-- The literal pattern `I apologize, but I`. -/
def patApologize : Pat :=
  ⟨litToks "i apologize, but i".toList, "I apologize, but I".toList⟩

/-- `OutputValidator.HALLUCINATION_PATTERNS` in source order (alternation
groups expanded into one entry per branch; a branch matches exactly when
the Python pattern matches). -/
def HALLUCINATION_PATTERNS : List Pat :=
  [patInsert, patDate, patYear, patNumber, patYear4,
   patAcc, patBased, patTraining,
   patAsAnAi1, patAsAnAi2, patAsAnAi3,
   patIAm1, patIAm2, patApologize]

/-- Whether some hallucination pattern matches the answer.  The Python
code searches `answer.lower()` with `re.IGNORECASE`; literal tokens
already compare case-insensitively, so matching the raw answer is
equivalent. -/
def anyHallucination (l : List Char) : Bool :=
  HALLUCINATION_PATTERNS.any fun p => hasMatch p.toks l

/-- The source text of the first hallucination pattern that matches, if
any (the Python loop reports the first matching pattern). -/
def firstHallucination (l : List Char) : Option (List Char) :=
  (HALLUCINATION_PATTERNS.find? fun p => hasMatch p.toks l).map Pat.src

/-- Model of `OutputValidator.validate` (validators.py lines 72-96). -/
def outputValidate (a : List Char) : Except RagError (List Char) :=
  if a.isEmpty || (pyStrip a).isEmpty then
    .error (.invalidOutput "Empty response from AI".toList)
  else if (pyStrip a).length < 5 then
    .error (.invalidOutput "Response too short to be valid".toList)
  else
    match firstHallucination a with
    | some src =>
      .error (.invalidOutput ("AI output contains placeholder or hallucination: ".toList ++ src))
    | none => .ok (pyStrip a)

/-- A retrieved document; `execute` only reads `page_content`. -/
structure Doc where
  page_content : List Char
deriving DecidableEq, Repr

/-- The two external collaborators of the use case, modelled as oracles
indexed by the call number (0-based), so that a collaborator may fail on
some calls and succeed on others.  `retrieve i q k` models the `i`-th
call of `vector_store.retrieve_documents(query=q, k=k)`; `generate i p`
models the `i`-th call of `llm.generate(p, temperature=0.1)`. -/
structure Collab where
  retrieve : Nat → List Char → Nat → Except RagError (List Doc)
  generate : Nat → List Char → Except RagError (List Char)

/-- Observable events of one `execute` run: collaborator calls with their
arguments, and backoff sleeps with their duration in seconds. -/
inductive Ev where
  | retrieveCall : List Char → Nat → Ev
  | generateCall : List Char → Ev
  | sleep : Nat → Ev
deriving DecidableEq, Repr

/-- Model of `AnswerQuestionUseCase._build_prompt`: the fixed f-string
template with the context and question interpolated. -/
def promptHead : List Char :=
  "You are a helpful assistant. Use the context below to answer the question.\n\nContext:\n".toList

/-- The template text between the context and the question. -/
def promptMid : List Char := "\n\nQuestion: ".toList

/-- The template text after the question. -/
def promptTail : List Char := "\n\nAnswer:".toList

/-- The prompt built from a validated question and an assembled context. -/
def buildPrompt (question context : List Char) : List Char :=
  promptHead ++ context ++ promptMid ++ question ++ promptTail

/-- Model of `"\n\n".join(doc.page_content for doc in documents)`. -/
def assembleContext (docs : List Doc) : List Char :=
  List.intercalate ('\n' :: '\n' :: []) (docs.map Doc.page_content)

/-- `MAX_RETRIES` (`max_retries = 3` in `execute`). -/
def maxRetries : Nat := 3

/-- The result of one iteration of the `for attempt in range(max_retries)`
body: the events it emitted, its outcome (the validated answer, or the
exception caught by the `except` clause), and the updated collaborator
call counters. -/
structure AttemptOut where
  evs : List Ev
  res : Except RagError (List Char)
  rIdx : Nat
  gIdx : Nat

/-- One iteration of the retry-loop body (answer_question.py lines 82-97):
retrieve documents with the validated question and `k = 5`, assemble the
context, build the prompt, call the LLM, validate the output.  Any error
along the way becomes the attempt's recorded error. -/
def attemptOnce (c : Collab) (vq : List Char) (rIdx gIdx : Nat) : AttemptOut :=
  match c.retrieve rIdx vq 5 with
  | .error e => ⟨[Ev.retrieveCall vq 5], .error e, rIdx + 1, gIdx⟩
  | .ok docs =>
    let prompt := buildPrompt vq (assembleContext docs)
    match c.generate gIdx prompt with
    | .error e =>
      ⟨[Ev.retrieveCall vq 5, Ev.generateCall prompt], .error e, rIdx + 1, gIdx + 1⟩
    | .ok ans =>
      ⟨[Ev.retrieveCall vq 5, Ev.generateCall prompt], outputValidate ans, rIdx + 1, gIdx + 1⟩

/-- The retry loop of `execute`, by recursion on the number of remaining
attempts.  `attempt` is the 0-based Python loop index, `rIdx`/`gIdx` are
the collaborator call counters, `last` is the current `last_error`.  A
successful attempt returns immediately; a failed attempt records its
error and, when it is not the final one, sleeps `2 ^ attempt` seconds;
when the loop exits, `Exception(f"Failed to generate RAG answer after
\x7bmax_retries\x7d attempts: \x7blast_error\x7d")` is raised, modelled
by `RagError.exhausted last`. -/
def runAttempts (c : Collab) (vq : List Char) :
    Nat → Nat → Nat → Nat → RagError → List Ev × Except RagError (List Char)
  | 0, _, _, _, last => ([], .error (.exhausted last))
  | n + 1, attempt, rIdx, gIdx, _ =>
    let a := attemptOnce c vq rIdx gIdx
    match a.res with
    | .ok va => (a.evs, .ok va)
    | .error e =>
      let rest := runAttempts c vq n (attempt + 1) a.rIdx a.gIdx e
      (a.evs ++ (if n = 0 then [] else [Ev.sleep (2 ^ attempt)]) ++ rest.1, rest.2)

/-- Model of `AnswerQuestionUseCase.execute` (answer_question.py lines
63-110): validate the input (an `InvalidInputError` propagates
immediately, with no collaborator call), then run the retry loop with
`max_retries = 3` and `last_error = None`. -/
def execute (c : Collab) (q : List Char) : List Ev × Except RagError (List Char) :=
  match inputValidate q with
  | .error e => ([], .error e)
  | .ok vq => runAttempts c vq maxRetries 0 0 0 RagError.pyNone

/-- The message of the exception as Python would render `str(e)`. -/
def errMessage : RagError → List Char
  | .invalidInput m => m
  | .invalidOutput m => m
  | .providerError m => m
  | .exhausted e =>
    "Failed to generate RAG answer after 3 attempts: ".toList ++ errMessage e
  | .pyNone => "None".toList

/-- An HTTP response of the `/ask` route: either the success JSON object
`("question", "answer", "status": "success")` or an `HTTPException` with
a status code and a detail string. -/
inductive HttpResp where
  | success : List Char → List Char → HttpResp
  | httpError : Nat → List Char → HttpResp
deriving DecidableEq, Repr

/-- Model of `ask_question` (routes.py lines 31-42): run the use case;
return the success payload on success, and on any exception return
`HTTPException(status_code=500, detail=f"Error processing question:
\x7bstr(e)\x7d")`. -/
def askQuestion (c : Collab) (q : List Char) : HttpResp :=
  match (execute c q).2 with
  | .ok a => .success q a
  | .error e =>
    .httpError 500 ("Error processing question: ".toList ++ errMessage e)

/-- Number of retrieval calls in a trace (each loop attempt starts with
exactly one retrieval call, so this also counts attempts). -/
def countRet (evs : List Ev) : Nat :=
  evs.countP fun ev => match ev with | Ev.retrieveCall _ _ => true | _ => false

/-- Number of generation calls in a trace. -/
def countGen (evs : List Ev) : Nat :=
  evs.countP fun ev => match ev with | Ev.generateCall _ => true | _ => false

/-- The backoff sleep durations of a trace, in order. -/
def sleepList (evs : List Ev) : List Nat :=
  evs.filterMap fun ev => match ev with | Ev.sleep n => some n | _ => none

/-- A continuation that accepts the whole list makes `matchStar` accept. -/
lemma matchStar_of_k (f : Char → Bool) (k : List Char → Bool) (xs : List Char)
    (h : k xs = true) : matchStar f k xs = true := by
  cases xs with
  | nil => simpa [matchStar] using h
  | cons x xs => simp [matchStar, h]

/-- `matchStar` only consumes a prefix: appending a suffix preserves a
match, provided the continuation has the same property. -/
lemma matchStar_append (f : Char → Bool) (k : List Char → Bool)
    (hk : ∀ l u, k l = true → k (l ++ u) = true) :
    ∀ l u, matchStar f k l = true → matchStar f k (l ++ u) = true := by
  intro l
  induction l with
  | nil =>
    intro u h
    simp only [matchStar] at h
    exact matchStar_of_k f k u (hk [] u h)
  | cons x l ih =>
    intro u h
    simp only [List.cons_append, matchStar, Bool.or_eq_true, Bool.and_eq_true] at h ⊢
    rcases h with h | ⟨hfx, h⟩
    · exact Or.inl (by simpa using hk (x :: l) u h)
    · exact Or.inr ⟨hfx, ih u h⟩

/-- `matchToks` only consumes a prefix: appending a suffix preserves a
match. -/
lemma matchToks_append (ts : List Tok) :
    ∀ l u, matchToks ts l = true → matchToks ts (l ++ u) = true := by
  induction ts with
  | nil => intro l u _; rfl
  | cons t ts ih =>
    cases t with
    | lit c =>
      intro l u h
      cases l with
      | nil => simp [matchToks] at h
      | cons x l =>
        simp only [List.cons_append, matchToks, Bool.and_eq_true] at h ⊢
        exact ⟨h.1, ih l u h.2⟩
    | cls f =>
      intro l u h
      cases l with
      | nil => simp [matchToks] at h
      | cons x l =>
        simp only [List.cons_append, matchToks, Bool.and_eq_true] at h ⊢
        exact ⟨h.1, ih l u h.2⟩
    | star f =>
      intro l u h
      simp only [matchToks] at h ⊢
      exact matchStar_append f _ (fun a b => ih a b) l u h
    | plus f =>
      intro l u h
      cases l with
      | nil => simp [matchToks] at h
      | cons x l =>
        simp only [List.cons_append, matchToks, Bool.and_eq_true] at h ⊢
        exact ⟨h.1, matchStar_append f _ (fun a b => ih a b) l u h.2⟩

/-- A full match at the start of the list yields a search match. -/
lemma hasMatch_of_match (ts : List Tok) (l : List Char)
    (h : matchToks ts l = true) : hasMatch ts l = true := by
  cases l with
  | nil => simpa [hasMatch] using h
  | cons x l => simp [hasMatch, h]

/-- A search match of a suffix is a search match of the whole list. -/
lemma hasMatch_append_left (ts : List Tok) :
    ∀ u l, hasMatch ts l = true → hasMatch ts (u ++ l) = true := by
  intro u
  induction u with
  | nil => intro l h; simpa using h
  | cons x u ih =>
    intro l h
    simp only [List.cons_append, hasMatch, Bool.or_eq_true]
    exact Or.inr (ih l h)

/-- A search match is a full match of some suffix. -/
lemma hasMatch_exists (ts : List Tok) :
    ∀ l, hasMatch ts l = true → ∃ s, s <:+ l ∧ matchToks ts s = true := by
  intro l
  induction l with
  | nil => intro h; exact ⟨[], List.suffix_refl [], by simpa [hasMatch] using h⟩
  | cons x l ih =>
    intro h
    simp only [hasMatch, Bool.or_eq_true] at h
    rcases h with h | h
    · exact ⟨x :: l, List.suffix_refl _, h⟩
    · obtain ⟨s, hs, hm⟩ := ih h
      exact ⟨s, hs.trans (List.suffix_cons x l), hm⟩

/-- A full match of any suffix yields a search match. -/
lemma hasMatch_of_suffix (ts : List Tok) (s l : List Char)
    (hs : s <:+ l) (h : matchToks ts s = true) : hasMatch ts l = true := by
  obtain ⟨w, rfl⟩ := hs
  exact hasMatch_append_left ts w s (hasMatch_of_match ts s h)

/-- The stripped string splits the `dropWhile` of the original. -/
lemma pyStrip_append_eq (a : List Char) :
    pyStrip a ++ ((List.dropWhile wsC a).reverse.takeWhile wsC).reverse
      = List.dropWhile wsC a := by
  unfold pyStrip
  conv_rhs => rw [← List.reverse_reverse (List.dropWhile wsC a)]
  rw [← List.reverse_append, List.takeWhile_append_dropWhile]

/-- A search match inside the stripped string is a search match of the
original string. -/
lemma hasMatch_pyStrip (ts : List Tok) (a : List Char)
    (h : hasMatch ts (pyStrip a) = true) : hasMatch ts a = true := by
  obtain ⟨s, hs, hm⟩ := hasMatch_exists ts _ h
  obtain ⟨w, hw⟩ := hs
  have hsub : (s ++ ((List.dropWhile wsC a).reverse.takeWhile wsC).reverse) <:+ a := by
    have h1 : (s ++ ((List.dropWhile wsC a).reverse.takeWhile wsC).reverse)
        <:+ List.dropWhile wsC a := by
      refine ⟨w, ?_⟩
      rw [← List.append_assoc, hw, pyStrip_append_eq]
    exact h1.trans (List.dropWhile_suffix wsC)
  exact hasMatch_of_suffix ts _ a hsub
    (matchToks_append ts s _ hm)

/-- Tokens that can never consume an ampersand: literal tokens other than
the ampersand itself, and classes rejecting the ampersand.  All the
validator patterns satisfy this. -/
def tokOKA : Tok → Bool
  | .lit c => !(c == '&')
  | .cls f => !(f '&')
  | .star f => !(f '&')
  | .plus f => !(f '&')

/-- List agreement up to HTML escaping: the left list is the escape of
the right one, compared until the first escaped character (whose escape
starts with an ampersand). -/
inductive AgreeE : List Char → List Char → Prop where
  | nil : AgreeE [] []
  | amp (u : List Char) (y : Char) (v : List Char) (hy : y ∈ Bset) :
      AgreeE ('&' :: u) (y :: v)
  | cons (x : Char) (u v : List Char) (hx : x ∉ Bset) (h : AgreeE u v) :
      AgreeE (x :: u) (x :: v)

/-- `matchStar` transfers along `AgreeE`, given that the continuation
does. -/
lemma agreeE_matchStar (f : Char → Bool) (k : List Char → Bool)
    (hf : f '&' = false)
    (hk : ∀ a b, AgreeE a b → k a = true → k b = true) :
    ∀ u v, AgreeE u v → matchStar f k u = true → matchStar f k v = true := by
  intro u v h
  induction h with
  | nil => exact id
  | amp u y v hy =>
    intro hm
    simp only [matchStar, hf, Bool.false_and, Bool.or_false] at hm
    exact matchStar_of_k f k (y :: v) (hk ('&' :: u) (y :: v) (AgreeE.amp u y v hy) hm)
  | cons x u v hx h ih =>
    intro hm
    simp only [matchStar, Bool.or_eq_true, Bool.and_eq_true] at hm ⊢
    rcases hm with hm | ⟨hfx, hm⟩
    · exact Or.inl (hk (x :: u) (x :: v) (AgreeE.cons x u v hx h) hm)
    · exact Or.inr ⟨hfx, ih hm⟩

/-- A match of an ampersand-avoiding pattern transfers from the escaped
list to the original list. -/
lemma agreeE_matchToks :
    ∀ ts : List Tok, ts.all tokOKA = true →
      ∀ u v, AgreeE u v → matchToks ts u = true → matchToks ts v = true := by
  intro ts
  induction ts with
  | nil => intro _ u v _ _; rfl
  | cons t ts ih =>
    intro hok u v h
    rw [List.all_cons, Bool.and_eq_true] at hok
    obtain ⟨hokt, hok'⟩ := hok
    cases t with
    | lit c =>
      cases h with
      | nil => exact id
      | amp u y v hy =>
        intro hm
        exfalso
        simp only [matchToks, Bool.and_eq_true, beq_iff_eq] at hm
        have hc : asciiLower '&' = '&' := rfl
        rw [hc] at hm
        simp only [tokOKA, Bool.not_eq_true', beq_eq_false_iff_ne, ne_eq] at hokt
        exact hokt hm.1.symm
      | cons x u v hx h =>
        intro hm
        simp only [matchToks, Bool.and_eq_true] at hm ⊢
        exact ⟨hm.1, ih hok' u v h hm.2⟩
    | cls f =>
      cases h with
      | nil => exact id
      | amp u y v hy =>
        intro hm
        exfalso
        simp only [matchToks, Bool.and_eq_true] at hm
        simp only [tokOKA, Bool.not_eq_true'] at hokt
        rw [hokt] at hm
        exact Bool.false_ne_true hm.1
      | cons x u v hx h =>
        intro hm
        simp only [matchToks, Bool.and_eq_true] at hm ⊢
        exact ⟨hm.1, ih hok' u v h hm.2⟩
    | star f =>
      intro hm
      simp only [matchToks] at hm ⊢
      simp only [tokOKA, Bool.not_eq_true'] at hokt
      exact agreeE_matchStar f _ hokt (fun a b hab => ih hok' a b hab) u v h hm
    | plus f =>
      cases h with
      | nil => exact id
      | amp u y v hy =>
        intro hm
        exfalso
        simp only [matchToks, Bool.and_eq_true] at hm
        simp only [tokOKA, Bool.not_eq_true'] at hokt
        rw [hokt] at hm
        exact Bool.false_ne_true hm.1
      | cons x u v hx h =>
        intro hm
        simp only [matchToks, Bool.and_eq_true] at hm ⊢
        simp only [tokOKA, Bool.not_eq_true'] at hokt
        exact ⟨hm.1, agreeE_matchStar f _ hokt (fun a b hab => ih hok' a b hab) u v h hm.2⟩

/-- Characters outside the escape set are kept unchanged. -/
lemma escChar_of_not_mem (c : Char) (hc : c ∉ Bset) : escChar c = [c] := by
  simp only [Bset, List.mem_cons, List.not_mem_nil, or_false, not_or] at hc
  obtain ⟨h1, h2, h3, h4, h5⟩ := hc
  simp [escChar, h1, h2, h3, h4, h5]

/-- The escape of the whole string relates to the original by `AgreeE`. -/
lemma agreeE_escape : ∀ s, AgreeE (htmlEscape s) s := by
  intro s
  induction s with
  | nil => exact AgreeE.nil
  | cons c s ih =>
    by_cases hc : c ∈ Bset
    · have : ∃ tail, escChar c = '&' :: tail := by
        fin_cases hc <;> exact ⟨_, rfl⟩
      obtain ⟨tail, htail⟩ := this
      show AgreeE (escChar c ++ htmlEscape s) (c :: s)
      rw [htail, List.cons_append]
      exact AgreeE.amp (tail ++ htmlEscape s) c s hc
    · show AgreeE (escChar c ++ htmlEscape s) (c :: s)
      rw [escChar_of_not_mem c hc, List.cons_append, List.nil_append]
      exact AgreeE.cons c (htmlEscape s) s hc ih

/-- Skipping a block whose suffixes never start a match does not change
the search result. -/
lemma hasMatch_append_skip (ts : List Tok) :
    ∀ e r, (∀ i, i < e.length → matchToks ts (e.drop i ++ r) = false) →
      hasMatch ts (e ++ r) = hasMatch ts r := by
  intro e
  induction e with
  | nil => intro r _; rfl
  | cons c e ih =>
    intro r h
    have h0 := h 0 (by simp)
    simp only [List.drop_zero] at h0
    rw [List.cons_append]
    show (matchToks ts (c :: (e ++ r)) || hasMatch ts (e ++ r)) = hasMatch ts r
    rw [show matchToks ts (c :: (e ++ r)) = false from by
      simpa only [List.cons_append] using h0]
    rw [Bool.false_or]
    exact ih r fun i hi => by
      simpa only [List.drop_succ_cons] using h (i + 1) (by simpa using Nat.succ_lt_succ hi)

/-- The five entity strings produced by `html.escape`. -/
def entities : List (List Char) :=
  [('&' :: 'a' :: 'm' :: 'p' :: ';' :: []),
   ('&' :: 'l' :: 't' :: ';' :: []),
   ('&' :: 'g' :: 't' :: ';' :: []),
   ('&' :: 'q' :: 'u' :: 'o' :: 't' :: ';' :: []),
   ('&' :: '#' :: 'x' :: '2' :: '7' :: ';' :: [])]

/-- No forbidden pattern can start inside an entity block (checked for
every suffix of every entity, with an arbitrary continuation). -/
lemma forbidden_entity_no_match :
    ∀ p ∈ FORBIDDEN_PATTERNS, ∀ ent ∈ entities, ∀ i, i < ent.length →
      ∀ rest, matchToks p.toks (ent.drop i ++ rest) = false := by
  intro p hp ent hent i hi rest
  simp only [FORBIDDEN_PATTERNS, List.mem_cons, List.not_mem_nil, or_false] at hp
  simp only [entities, List.mem_cons, List.not_mem_nil, or_false] at hent
  rcases hp with rfl | rfl | rfl | rfl | rfl | rfl <;>
    (rcases hent with rfl | rfl | rfl | rfl | rfl <;>
      (simp only [List.length_cons, List.length_nil] at hi
       rcases i with _ | _ | _ | _ | _ | _ | i <;> first | rfl | (exfalso; omega)))

/-- All forbidden patterns avoid the ampersand. -/
lemma forbidden_tokOKA : ∀ p ∈ FORBIDDEN_PATTERNS, p.toks.all tokOKA = true := by
  intro p hp
  simp only [FORBIDDEN_PATTERNS, List.mem_cons, List.not_mem_nil, or_false] at hp
  rcases hp with rfl | rfl | rfl | rfl | rfl | rfl <;> decide

/-- Escaping an entity character yields one of the entity strings. -/
lemma escChar_mem_entities (c : Char) (hc : c ∈ Bset) : escChar c ∈ entities := by
  fin_cases hc <;> decide

/-- Central preservation lemma: a pattern that avoids the ampersand and
cannot start inside an entity matches the escaped string only if it
matches the original string. -/
lemma escape_no_new_match (ts : List Tok) (hok : ts.all tokOKA = true)
    (hent : ∀ ent ∈ entities, ∀ i, i < ent.length →
      ∀ rest, matchToks ts (ent.drop i ++ rest) = false) :
    ∀ s, hasMatch ts (htmlEscape s) = true → hasMatch ts s = true := by
  intro s
  induction s with
  | nil => exact id
  | cons c s ih =>
    by_cases hc : c ∈ Bset
    · intro hm
      have hesc : htmlEscape (c :: s) = escChar c ++ htmlEscape s := rfl
      rw [hesc, hasMatch_append_skip ts (escChar c) (htmlEscape s)
        (fun i hi => hent (escChar c) (escChar_mem_entities c hc) i hi (htmlEscape s))] at hm
      have h2 := ih hm
      have hunfold : hasMatch ts (c :: s) = (matchToks ts (c :: s) || hasMatch ts s) := rfl
      rw [hunfold, Bool.or_eq_true]
      exact Or.inr h2
    · intro hm
      rw [show htmlEscape (c :: s) = c :: htmlEscape s from by
        show escChar c ++ htmlEscape s = c :: htmlEscape s
        rw [escChar_of_not_mem c hc, List.cons_append, List.nil_append]] at hm
      have hu1 : hasMatch ts (c :: htmlEscape s)
          = (matchToks ts (c :: htmlEscape s) || hasMatch ts (htmlEscape s)) := rfl
      have hu2 : hasMatch ts (c :: s) = (matchToks ts (c :: s) || hasMatch ts s) := rfl
      rw [hu1, Bool.or_eq_true] at hm
      rw [hu2, Bool.or_eq_true]
      rcases hm with hm | hm
      · exact Or.inl (agreeE_matchToks ts hok (c :: htmlEscape s) (c :: s)
          (AgreeE.cons c (htmlEscape s) s hc (agreeE_escape s)) hm)
      · exact Or.inr (ih hm)

/-- A forbidden-pattern-free string stays forbidden-pattern-free after
HTML escaping. -/
lemma anyForbidden_htmlEscape (t : List Char) (h : anyForbidden t = false) :
    anyForbidden (htmlEscape t) = false := by
  unfold anyForbidden at h ⊢
  rw [List.any_eq_false] at h ⊢
  intro p hp hcontra
  exact h p hp (escape_no_new_match p.toks (forbidden_tokOKA p hp)
    (fun ent hent i hi rest => forbidden_entity_no_match p hp ent hent i hi rest) t hcontra)

/-- Token lists that can only consume the empty string (all stars). -/
def allStar : List Tok → Bool
  | [] => true
  | Tok.star _ :: ts => allStar ts
  | _ => false

/-- Matching against the empty list succeeds exactly for all-star
patterns. -/
lemma matchToks_nil (ts : List Tok) : matchToks ts [] = allStar ts := by
  induction ts with
  | nil => rfl
  | cons t ts ih =>
    cases t with
    | lit c => rfl
    | cls f => rfl
    | plus f => rfl
    | star f =>
      show matchStar f (fun l => matchToks ts l) [] = allStar (Tok.star f :: ts)
      simpa [matchStar, allStar] using ih

/-- Matching an ampersand-avoiding pattern against a list headed by an
ampersand is the same as matching the empty string. -/
lemma matchToks_amp (ts : List Tok) (hok : ts.all tokOKA = true) (u : List Char) :
    matchToks ts ('&' :: u) = allStar ts := by
  induction ts with
  | nil => rfl
  | cons t ts ih =>
    rw [List.all_cons, Bool.and_eq_true] at hok
    obtain ⟨hokt, hok'⟩ := hok
    cases t with
    | lit c =>
      show ((asciiLower '&' == c) && matchToks ts u) = allStar (Tok.lit c :: ts)
      have h1 : asciiLower '&' = '&' := rfl
      simp only [tokOKA, Bool.not_eq_true', beq_eq_false_iff_ne, ne_eq] at hokt
      rw [h1, beq_eq_false_iff_ne.2 (fun hcontra => hokt hcontra.symm), Bool.false_and]
      rfl
    | cls f =>
      show (f '&' && matchToks ts u) = allStar (Tok.cls f :: ts)
      simp only [tokOKA, Bool.not_eq_true'] at hokt
      rw [hokt, Bool.false_and]
      rfl
    | plus f =>
      show (f '&' && matchStar f (fun l => matchToks ts l) u) = allStar (Tok.plus f :: ts)
      simp only [tokOKA, Bool.not_eq_true'] at hokt
      rw [hokt, Bool.false_and]
      rfl
    | star f =>
      show matchStar f (fun l => matchToks ts l) ('&' :: u) = allStar (Tok.star f :: ts)
      simp only [tokOKA, Bool.not_eq_true'] at hokt
      simp only [matchStar, hokt, Bool.false_and, Bool.or_false]
      exact ih hok'

/-- No ampersand-avoiding, non-all-star pattern matches anywhere in a
string of ampersands. -/
lemma hasMatch_replicate_amp (ts : List Tok) (hok : ts.all tokOKA = true)
    (hstar : allStar ts = false) :
    ∀ n, hasMatch ts (List.replicate n '&') = false := by
  intro n
  induction n with
  | zero =>
    show matchToks ts [] = false
    rw [matchToks_nil]; exact hstar
  | succ n ih =>
    rw [List.replicate_succ]
    show (matchToks ts ('&' :: List.replicate n '&')
      || hasMatch ts (List.replicate n '&')) = false
    rw [matchToks_amp ts hok, hstar, ih, Bool.or_self]

/-- No forbidden pattern matches a string of ampersands. -/
lemma anyForbidden_replicate_amp (n : Nat) :
    anyForbidden (List.replicate n '&') = false := by
  unfold anyForbidden
  rw [List.any_eq_false]
  intro p hp
  rw [hasMatch_replicate_amp p.toks (forbidden_tokOKA p hp) ?hstar n]
  · simp
  case hstar =>
    simp only [FORBIDDEN_PATTERNS, List.mem_cons, List.not_mem_nil, or_false] at hp
    rcases hp with rfl | rfl | rfl | rfl | rfl | rfl <;> decide

/-- `dropWhile` is the identity when the head (if any) fails the
predicate. -/
lemma dropWhile_eq_self_of_head (p : Char → Bool) (l : List Char)
    (h : ∀ x ∈ l.head?, p x = false) : l.dropWhile p = l := by
  cases l with
  | nil => rfl
  | cons x l =>
    have hx : p x = false := h x rfl
    simp [List.dropWhile_cons, hx]

/-- A stripped string neither starts nor ends with whitespace. -/
lemma pyStrip_eq_self_parts (t : List Char) (h : pyStrip t = t) :
    List.dropWhile wsC t = t ∧ List.dropWhile wsC t.reverse = t.reverse := by
  have hlen1 : (pyStrip t).length ≤ (List.dropWhile wsC t).length := by
    unfold pyStrip
    rw [List.length_reverse]
    calc (((List.dropWhile wsC t).reverse.dropWhile wsC)).length
        ≤ (List.dropWhile wsC t).reverse.length :=
          (List.dropWhile_suffix wsC).length_le
      _ = (List.dropWhile wsC t).length := List.length_reverse _
  have hlen2 : (List.dropWhile wsC t).length ≤ t.length :=
    (List.dropWhile_suffix wsC).length_le
  have heq1 : List.dropWhile wsC t = t := by
    refine (List.dropWhile_suffix wsC).eq_of_length ?_
    rw [h] at hlen1
    omega
  refine ⟨heq1, ?_⟩
  have h2 : pyStrip t = (t.reverse.dropWhile wsC).reverse := by
    unfold pyStrip; rw [heq1]
  rw [h2] at h
  have h3 := congrArg List.reverse h
  rwa [List.reverse_reverse] at h3

/-- The escape of a nonempty string starts with its first character or
with an ampersand. -/
lemma htmlEscape_cons_head (c : Char) (t : List Char) :
    ∃ hd rest, htmlEscape (c :: t) = hd :: rest ∧ (hd = c ∨ hd = '&') := by
  by_cases hc : c ∈ Bset
  · obtain ⟨tail, htail⟩ : ∃ tail, escChar c = '&' :: tail := by
      fin_cases hc <;> exact ⟨_, rfl⟩
    exact ⟨'&', tail ++ htmlEscape t, by
      show escChar c ++ htmlEscape t = _
      rw [htail, List.cons_append], Or.inr rfl⟩
  · exact ⟨c, htmlEscape t, by
      show escChar c ++ htmlEscape t = _
      rw [escChar_of_not_mem c hc, List.cons_append, List.nil_append], Or.inl rfl⟩

/-- The escape of a character ends with that character or a semicolon. -/
lemma escChar_getLast (c : Char) :
    ∃ front z, escChar c = front ++ [z] ∧ (z = c ∨ z = ';') := by
  by_cases hc : c ∈ Bset
  · fin_cases hc
    · exact ⟨('&' :: 'a' :: 'm' :: 'p' :: []), ';', rfl, Or.inr rfl⟩
    · exact ⟨('&' :: 'l' :: 't' :: []), ';', rfl, Or.inr rfl⟩
    · exact ⟨('&' :: 'g' :: 't' :: []), ';', rfl, Or.inr rfl⟩
    · exact ⟨('&' :: 'q' :: 'u' :: 'o' :: 't' :: []), ';', rfl, Or.inr rfl⟩
    · exact ⟨('&' :: '#' :: 'x' :: '2' :: '7' :: []), ';', rfl, Or.inr rfl⟩
  · exact ⟨[], c, by rw [escChar_of_not_mem c hc, List.nil_append], Or.inl rfl⟩

/-- `htmlEscape` distributes over append. -/
lemma htmlEscape_append : ∀ a b : List Char,
    htmlEscape (a ++ b) = htmlEscape a ++ htmlEscape b := by
  intro a b
  induction a with
  | nil => rfl
  | cons c a ih =>
    show escChar c ++ htmlEscape (a ++ b) = (escChar c ++ htmlEscape a) ++ htmlEscape b
    rw [ih, List.append_assoc]

/-- Escaping never shortens a string. -/
lemma htmlEscape_length_ge : ∀ l : List Char, l.length ≤ (htmlEscape l).length := by
  intro l
  induction l with
  | nil => simp [htmlEscape]
  | cons c l ih =>
    show (c :: l).length ≤ (escChar c ++ htmlEscape l).length
    rw [List.length_append, List.length_cons]
    have hc : 1 ≤ (escChar c).length := by
      unfold escChar
      split_ifs <;> simp
    omega

/-- A stripped, nonempty string keeps a stable strip after escaping. -/
lemma pyStrip_htmlEscape (t : List Char) (ht : pyStrip t = t) (hne : t ≠ []) :
    pyStrip (htmlEscape t) = htmlEscape t := by
  obtain ⟨hdrop, hdropRev⟩ := pyStrip_eq_self_parts t ht
  have hhead0 : ∀ x ∈ t.head?, wsC x = false := by
    intro x hx
    have hmatch := List.head?_dropWhile_not wsC t
    rw [hdrop, Option.mem_def.1 hx] at hmatch
    exact hmatch
  have hlast0 : ∀ x ∈ t.reverse.head?, wsC x = false := by
    intro x hx
    have hmatch := List.head?_dropWhile_not wsC t.reverse
    rw [hdropRev, Option.mem_def.1 hx] at hmatch
    exact hmatch
  have hhead : ∀ x ∈ (htmlEscape t).head?, wsC x = false := by
    cases t with
    | nil => exact absurd rfl hne
    | cons c t' =>
      obtain ⟨hd, rest, hE, hhd⟩ := htmlEscape_cons_head c t'
      intro x hx
      rw [hE] at hx
      simp only [List.head?_cons, Option.mem_def, Option.some.injEq] at hx
      subst hx
      rcases hhd with rfl | rfl
      · exact hhead0 _ rfl
      · rfl
  have hlast : ∀ x ∈ (htmlEscape t).reverse.head?, wsC x = false := by
    rcases List.eq_nil_or_concat t with hnil | ⟨front, z, hfz⟩
    · exact absurd hnil hne
    · rw [List.concat_eq_append] at hfz
      obtain ⟨ef, ez, hesc, hez⟩ := escChar_getLast z
      have hE : htmlEscape t = htmlEscape front ++ (ef ++ [ez]) := by
        rw [hfz, htmlEscape_append]
        congr 1
        show escChar z ++ [] = ef ++ [ez]
        rw [List.append_nil, hesc]
      intro x hx
      rw [hE, List.reverse_append, List.reverse_append] at hx
      simp only [List.reverse_cons, List.reverse_nil, List.nil_append, List.cons_append,
        List.head?_cons, Option.mem_def, Option.some.injEq] at hx
      subst hx
      rcases hez with rfl | rfl
      · refine hlast0 ez ?_
        rw [hfz, List.reverse_append]
        rfl
      · rfl
  have h1 : List.dropWhile wsC (htmlEscape t) = htmlEscape t :=
    dropWhile_eq_self_of_head wsC _ hhead
  have h2 : List.dropWhile wsC (htmlEscape t).reverse = (htmlEscape t).reverse :=
    dropWhile_eq_self_of_head wsC _ hlast
  unfold pyStrip
  rw [h1, h2, List.reverse_reverse]

/-- Matching a case-insensitive literal word consumes exactly that word. -/
lemma matchToks_litToks (cs : List Char) (ts : List Tok) :
    ∀ s rest, s.map asciiLower = cs →
      matchToks (litToks cs ++ ts) (s ++ rest) = matchToks ts rest := by
  induction cs with
  | nil =>
    intro s rest h
    rw [List.map_eq_nil_iff] at h
    subst h
    rfl
  | cons c cs ih =>
    intro s rest h
    cases s with
    | nil => simp at h
    | cons x s' =>
      simp only [List.map_cons, List.cons.injEq] at h
      obtain ⟨h1, h2⟩ := h
      show ((asciiLower x == c) && matchToks (litToks cs ++ ts) (s' ++ rest))
        = matchToks ts rest
      rw [h1, beq_self_eq_true, Bool.true_and]
      exact ih s' rest h2

/-- A block of class characters followed by an accepted continuation is
accepted by `matchStar`. -/
lemma matchStar_all (f : Char → Bool) (k : List Char → Bool) :
    ∀ sp rest, sp.all f = true → k rest = true → matchStar f k (sp ++ rest) = true := by
  intro sp
  induction sp with
  | nil => intro rest _ hk; exact matchStar_of_k f k rest hk
  | cons x sp ih =>
    intro rest hall hk
    rw [List.all_cons, Bool.and_eq_true] at hall
    rw [List.cons_append]
    show (k (x :: (sp ++ rest)) || (f x && matchStar f k (sp ++ rest))) = true
    rw [hall.1, ih rest hall.2 hk, Bool.and_true, Bool.or_true]

/-- Inversion of a successful input validation: the returned string is
the escaped strip, whose length was checked before escaping and which
contains no forbidden pattern. -/
lemma inputValidate_ok_inv (q r : List Char) (h : inputValidate q = .ok r) :
    r = htmlEscape (pyStrip q) ∧ (pyStrip q).isEmpty = false ∧
      3 ≤ (pyStrip q).length ∧ (pyStrip q).length ≤ 2000 ∧
      anyForbidden (pyStrip q) = false := by
  unfold inputValidate at h
  split_ifs at h with h1 h2 h3 h4
  have hr : htmlEscape (pyStrip q) = r := by simpa using h
  simp only [Bool.or_eq_true, not_or, Bool.not_eq_true] at h1
  exact ⟨hr.symm, h1.2, by omega, by omega, by simpa using h4⟩

/-- A question whose strip has valid length and no forbidden pattern
validates to the escape of its strip. -/
lemma inputValidate_ok_of (q : List Char) (h1 : (pyStrip q).isEmpty = false)
    (h2 : 3 ≤ (pyStrip q).length) (h3 : (pyStrip q).length ≤ 2000)
    (h4 : anyForbidden (pyStrip q) = false) :
    inputValidate q = .ok (htmlEscape (pyStrip q)) := by
  have hq : q.isEmpty = false := by
    cases q with
    | nil => simp [pyStrip] at h1
    | cons c l => rfl
  unfold inputValidate
  rw [hq, h1, h4]
  rw [if_neg (by simp), if_neg (by omega), if_neg (by omega), if_neg (by simp)]

/-- Retrieval-call count distributes over append. -/
lemma countRet_append (a b : List Ev) : countRet (a ++ b) = countRet a + countRet b := by
  unfold countRet
  exact List.countP_append _ _ _

/-- Generation-call count distributes over append. -/
lemma countGen_append (a b : List Ev) : countGen (a ++ b) = countGen a + countGen b := by
  unfold countGen
  exact List.countP_append _ _ _

/-- Sleep durations distribute over append. -/
lemma sleepList_append (a b : List Ev) : sleepList (a ++ b) = sleepList a ++ sleepList b := by
  unfold sleepList
  exact List.filterMap_append _ _ _

/-- Exhaustive description of one loop attempt: retrieval fails, or
retrieval succeeds and the attempt's outcome is the generation error or
the result of output validation. -/
lemma attemptOnce_cases (c : Collab) (vq : List Char) (r g : Nat) :
    (∃ e, c.retrieve r vq 5 = .error e ∧
      attemptOnce c vq r g = ⟨[Ev.retrieveCall vq 5], .error e, r + 1, g⟩) ∨
    (∃ docs raw, c.retrieve r vq 5 = .ok docs ∧
      c.generate g (buildPrompt vq (assembleContext docs)) = .ok raw ∧
      attemptOnce c vq r g =
        ⟨[Ev.retrieveCall vq 5, Ev.generateCall (buildPrompt vq (assembleContext docs))],
          outputValidate raw, r + 1, g + 1⟩) ∨
    (∃ docs e, c.retrieve r vq 5 = .ok docs ∧
      c.generate g (buildPrompt vq (assembleContext docs)) = .error e ∧
      attemptOnce c vq r g =
        ⟨[Ev.retrieveCall vq 5, Ev.generateCall (buildPrompt vq (assembleContext docs))],
          .error e, r + 1, g + 1⟩) := by
  rcases hr : c.retrieve r vq 5 with e | docs
  · exact Or.inl ⟨e, rfl, by simp [attemptOnce, hr]⟩
  · rcases hg : c.generate g (buildPrompt vq (assembleContext docs)) with e | raw
    · exact Or.inr (Or.inr ⟨docs, e, rfl, hg, by simp [attemptOnce, hr, hg]⟩)
    · exact Or.inr (Or.inl ⟨docs, raw, rfl, hg, by simp [attemptOnce, hr, hg]⟩)

/-- Each run of the loop performs at most `n` attempts. -/
lemma runAttempts_countRet_le (c : Collab) (vq : List Char) :
    ∀ n attempt rIdx gIdx last,
      countRet (runAttempts c vq n attempt rIdx gIdx last).1 ≤ n := by
  intro n
  induction n with
  | zero => intro attempt rIdx gIdx last; simp [runAttempts, countRet]
  | succ n ih =>
    intro attempt rIdx gIdx last
    rcases attemptOnce_cases c vq rIdx gIdx with
      ⟨e, _, ha⟩ | ⟨docs, raw, _, _, ha⟩ | ⟨docs, e, _, _, ha⟩
    · simp only [runAttempts, ha]
      rw [countRet_append, countRet_append]
      have h1 : countRet [Ev.retrieveCall vq 5] = 1 := rfl
      have h2 : countRet (if n = 0 then [] else [Ev.sleep (2 ^ attempt)]) = 0 := by
        split <;> rfl
      rw [h1, h2]
      have := ih (attempt + 1) (rIdx + 1) gIdx e
      omega
    · simp only [runAttempts, ha]
      rcases hov : outputValidate raw with e' | va
      · rw [countRet_append, countRet_append]
        have h1 : countRet [Ev.retrieveCall vq 5,
            Ev.generateCall (buildPrompt vq (assembleContext docs))] = 1 := rfl
        have h2 : countRet (if n = 0 then [] else [Ev.sleep (2 ^ attempt)]) = 0 := by
          split <;> rfl
        rw [h1, h2]
        have := ih (attempt + 1) (rIdx + 1) (gIdx + 1) e'
        omega
      · have h1 : countRet [Ev.retrieveCall vq 5,
            Ev.generateCall (buildPrompt vq (assembleContext docs))] = 1 := rfl
        rw [h1]
        omega
    · simp only [runAttempts, ha]
      rw [countRet_append, countRet_append]
      have h1 : countRet [Ev.retrieveCall vq 5,
          Ev.generateCall (buildPrompt vq (assembleContext docs))] = 1 := rfl
      have h2 : countRet (if n = 0 then [] else [Ev.sleep (2 ^ attempt)]) = 0 := by
        split <;> rfl
      rw [h1, h2]
      have := ih (attempt + 1) (rIdx + 1) (gIdx + 1) e
      omega

/-- Event counts of the per-attempt traces. -/
lemma countRet_one_ret (vq : List Char) : countRet [Ev.retrieveCall vq 5] = 1 := rfl

/-- A retrieval-plus-generation trace holds one retrieval call. -/
lemma countRet_ret_gen (vq p : List Char) :
    countRet [Ev.retrieveCall vq 5, Ev.generateCall p] = 1 := rfl

/-- The optional sleep block holds no retrieval call. -/
lemma countRet_sleep_block (b : Prop) [Decidable b] (t : Nat) :
    countRet (if b then ([] : List Ev) else [Ev.sleep t]) = 0 := by
  split <;> rfl

/-- A retrieval-only trace holds no generation call. -/
lemma countGen_one_ret (vq : List Char) : countGen [Ev.retrieveCall vq 5] = 0 := rfl

/-- A retrieval-plus-generation trace holds one generation call. -/
lemma countGen_ret_gen (vq p : List Char) :
    countGen [Ev.retrieveCall vq 5, Ev.generateCall p] = 1 := rfl

/-- The optional sleep block holds no generation call. -/
lemma countGen_sleep_block (b : Prop) [Decidable b] (t : Nat) :
    countGen (if b then ([] : List Ev) else [Ev.sleep t]) = 0 := by
  split <;> rfl

/-- A retrieval-only trace holds no sleep. -/
lemma sleepList_one_ret (vq : List Char) : sleepList [Ev.retrieveCall vq 5] = [] := rfl

/-- A retrieval-plus-generation trace holds no sleep. -/
lemma sleepList_ret_gen (vq p : List Char) :
    sleepList [Ev.retrieveCall vq 5, Ev.generateCall p] = [] := rfl

/-- The sleep durations of the optional sleep block. -/
lemma sleepList_sleep_block (b : Prop) [Decidable b] (t : Nat) :
    sleepList (if b then ([] : List Ev) else [Ev.sleep t])
      = if b then [] else [t] := by
  split <;> rfl

/-- Unfolding of a loop step whose attempt fails. -/
lemma runAttempts_fail_step (c : Collab) (vq : List Char)
    (n attempt rIdx gIdx : Nat) (last : RagError)
    (evs : List Ev) (e : RagError) (r2 g2 : Nat)
    (ha : attemptOnce c vq rIdx gIdx = ⟨evs, .error e, r2, g2⟩) :
    runAttempts c vq (n + 1) attempt rIdx gIdx last
      = (evs ++ (if n = 0 then [] else [Ev.sleep (2 ^ attempt)])
          ++ (runAttempts c vq n (attempt + 1) r2 g2 e).1,
         (runAttempts c vq n (attempt + 1) r2 g2 e).2) := by
  simp only [runAttempts, ha]

/-- Unfolding of a loop step whose attempt succeeds. -/
lemma runAttempts_ok_step (c : Collab) (vq : List Char)
    (n attempt rIdx gIdx : Nat) (last : RagError)
    (evs : List Ev) (va : List Char) (r2 g2 : Nat)
    (ha : attemptOnce c vq rIdx gIdx = ⟨evs, .ok va, r2, g2⟩) :
    runAttempts c vq (n + 1) attempt rIdx gIdx last = (evs, .ok va) := by
  simp only [runAttempts, ha]

/-- A loop run with at least one remaining attempt performs an attempt. -/
lemma runAttempts_countRet_pos (c : Collab) (vq : List Char) :
    ∀ n attempt rIdx gIdx last, 1 ≤ n →
      1 ≤ countRet (runAttempts c vq n attempt rIdx gIdx last).1 := by
  intro n attempt rIdx gIdx last hn
  cases n with
  | zero => omega
  | succ n =>
    rcases attemptOnce_cases c vq rIdx gIdx with
      ⟨e, _, ha⟩ | ⟨docs, raw, _, _, ha⟩ | ⟨docs, e, _, _, ha⟩
    · rw [runAttempts_fail_step c vq n attempt rIdx gIdx last _ e _ _ ha]
      rw [countRet_append, countRet_append, countRet_one_ret]
      omega
    · rcases hov : outputValidate raw with e2 | va
      · rw [hov] at ha
        rw [runAttempts_fail_step c vq n attempt rIdx gIdx last _ e2 _ _ ha]
        rw [countRet_append, countRet_append, countRet_ret_gen]
        omega
      · rw [hov] at ha
        rw [runAttempts_ok_step c vq n attempt rIdx gIdx last _ va _ _ ha]
        rw [countRet_ret_gen]
    · rw [runAttempts_fail_step c vq n attempt rIdx gIdx last _ e _ _ ha]
      rw [countRet_append, countRet_append, countRet_ret_gen]
      omega

/-- The backoff schedule: one sleep after each non-final failed attempt,
of duration `2 ^ attempt` for the 0-based attempt index. -/
lemma runAttempts_sleeps (c : Collab) (vq : List Char) :
    ∀ n attempt rIdx gIdx last,
      sleepList (runAttempts c vq n attempt rIdx gIdx last).1
        = (List.range (countRet (runAttempts c vq n attempt rIdx gIdx last).1 - 1)).map
            (fun i => 2 ^ (attempt + i)) := by
  intro n
  induction n with
  | zero =>
    intro attempt rIdx gIdx last
    simp [runAttempts, sleepList, countRet]
  | succ n ih =>
    intro attempt rIdx gIdx last
    have step :
        ∀ (evs : List Ev) (e : RagError) (r2 g2 : Nat),
          attemptOnce c vq rIdx gIdx = ⟨evs, .error e, r2, g2⟩ →
          countRet evs = 1 → sleepList evs = [] →
          sleepList (runAttempts c vq (n + 1) attempt rIdx gIdx last).1
            = (List.range
                (countRet (runAttempts c vq (n + 1) attempt rIdx gIdx last).1 - 1)).map
                (fun i => 2 ^ (attempt + i)) := by
      intro evs e r2 g2 ha hc hs
      rw [runAttempts_fail_step c vq n attempt rIdx gIdx last evs e r2 g2 ha]
      rw [sleepList_append, sleepList_append, countRet_append, countRet_append,
        hc, hs, countRet_sleep_block, sleepList_sleep_block]
      by_cases hn : n = 0
      · subst hn
        have hrest : runAttempts c vq 0 (attempt + 1) r2 g2 e
            = ([], .error (.exhausted e)) := rfl
        rw [hrest]
        simp [sleepList, countRet]
      · rw [if_neg hn]
        have hpos := runAttempts_countRet_pos c vq n (attempt + 1) r2 g2 e (by omega)
        set k := countRet (runAttempts c vq n (attempt + 1) r2 g2 e).1 with hk
        obtain ⟨k2, hk2⟩ : ∃ k2, k = k2 + 1 := ⟨k - 1, by omega⟩
        rw [ih (attempt + 1) r2 g2 e]
        rw [← hk, hk2]
        have hrange : 1 + (k2 + 1) - 1 = k2 + 1 := by omega
        rw [List.nil_append, hrange, List.range_succ_eq_map]
        simp only [List.map_cons, List.map_map]
        have h0 : 2 ^ (attempt + 0) = 2 ^ attempt := by rw [Nat.add_zero]
        rw [h0]
        have hsimp : k2 + 1 - 1 = k2 := by omega
        rw [hsimp, List.singleton_append]
        congr 1
        apply List.map_congr_left
        intro i _
        show 2 ^ (attempt + 1 + i) = 2 ^ (attempt + Nat.succ i)
        congr 1
        omega
    rcases attemptOnce_cases c vq rIdx gIdx with
      ⟨e, _, ha⟩ | ⟨docs, raw, _, _, ha⟩ | ⟨docs, e, _, _, ha⟩
    · exact step _ e _ _ ha rfl rfl
    · rcases hov : outputValidate raw with e2 | va
      · rw [hov] at ha
        exact step _ e2 _ _ ha rfl rfl
      · rw [hov] at ha
        rw [runAttempts_ok_step c vq n attempt rIdx gIdx last _ va _ _ ha]
        rw [sleepList_ret_gen, countRet_ret_gen]
        simp
    · exact step _ e _ _ ha rfl rfl

/-- A successful run ends at its successful attempt: the trace ends with
the generation call whose output-validated answer is returned, and no
event follows it. -/
lemma runAttempts_success (c : Collab) (vq : List Char) :
    ∀ n attempt rIdx gIdx last ans,
      (runAttempts c vq n attempt rIdx gIdx last).2 = .ok ans →
      ∃ p raw,
        (runAttempts c vq n attempt rIdx gIdx last).1.getLast?
          = some (Ev.generateCall p) ∧
        c.generate (gIdx + countGen (runAttempts c vq n attempt rIdx gIdx last).1 - 1) p
          = .ok raw ∧
        outputValidate raw = .ok ans := by
  intro n
  induction n with
  | zero =>
    intro attempt rIdx gIdx last ans h
    exact absurd h (by simp [runAttempts])
  | succ n ih =>
    intro attempt rIdx gIdx last ans h
    rcases attemptOnce_cases c vq rIdx gIdx with
      ⟨e, _, ha⟩ | ⟨docs, raw, _, hgen, ha⟩ | ⟨docs, e, _, _, ha⟩
    · rw [runAttempts_fail_step c vq n attempt rIdx gIdx last _ e _ _ ha] at h ⊢
      obtain ⟨p, raw, hlast, hgen, hval⟩ := ih (attempt + 1) (rIdx + 1) gIdx e ans h
      refine ⟨p, raw, ?_, ?_, hval⟩
      · rw [List.getLast?_append, hlast, Option.or_some]
      · rw [countGen_append, countGen_append, countGen_one_ret, countGen_sleep_block]
        convert hgen using 2
        omega
    · rcases hov : outputValidate raw with e2 | va
      · rw [hov] at ha
        rw [runAttempts_fail_step c vq n attempt rIdx gIdx last _ e2 _ _ ha] at h ⊢
        obtain ⟨p, raw2, hlast, hgen2, hval⟩ := ih (attempt + 1) (rIdx + 1) (gIdx + 1) e2 ans h
        refine ⟨p, raw2, ?_, ?_, hval⟩
        · rw [List.getLast?_append, hlast, Option.or_some]
        · rw [countGen_append, countGen_append, countGen_ret_gen, countGen_sleep_block]
          convert hgen2 using 2
          omega
      · rw [hov] at ha
        rw [runAttempts_ok_step c vq n attempt rIdx gIdx last _ va _ _ ha] at h ⊢
        have hans : va = ans := by simpa using h
        subst hans
        refine ⟨buildPrompt vq (assembleContext docs), raw, rfl, ?_, hov⟩
        rw [countGen_ret_gen]
        simpa using hgen
    · rw [runAttempts_fail_step c vq n attempt rIdx gIdx last _ e _ _ ha] at h ⊢
      obtain ⟨p, raw2, hlast, hgen2, hval⟩ := ih (attempt + 1) (rIdx + 1) (gIdx + 1) e ans h
      refine ⟨p, raw2, ?_, ?_, hval⟩
      · rw [List.getLast?_append, hlast, Option.or_some]
      · rw [countGen_append, countGen_append, countGen_ret_gen, countGen_sleep_block]
        convert hgen2 using 2
        omega

/-- An errored run used all its attempts, and its error is the
exhaustion of the error of its final attempt. -/
lemma runAttempts_error (c : Collab) (vq : List Char) :
    ∀ n attempt rIdx gIdx last E,
      (runAttempts c vq n attempt rIdx gIdx last).2 = .error E →
      countRet (runAttempts c vq n attempt rIdx gIdx last).1 = n ∧
      ∃ e, E = .exhausted e ∧
        ((n = 0 ∧ e = last) ∨
          ∃ g2, gIdx ≤ g2 ∧ g2 ≤ gIdx + (n - 1) ∧
            (attemptOnce c vq (rIdx + (n - 1)) g2).res = .error e) := by
  intro n
  induction n with
  | zero =>
    intro attempt rIdx gIdx last E h
    have hE : E = .exhausted last := by
      have : (Except.error (RagError.exhausted last) : Except RagError (List Char))
          = .error E := h
      simpa using this.symm
    exact ⟨rfl, last, hE, Or.inl ⟨rfl, rfl⟩⟩
  | succ n ih =>
    intro attempt rIdx gIdx last E h
    rcases attemptOnce_cases c vq rIdx gIdx with
      ⟨e, _, ha⟩ | ⟨docs, raw, _, _, ha⟩ | ⟨docs, e, _, _, ha⟩
    · rw [runAttempts_fail_step c vq n attempt rIdx gIdx last _ e _ _ ha] at h ⊢
      obtain ⟨ihc, e2, hE, hdisj⟩ := ih (attempt + 1) (rIdx + 1) gIdx e E h
      have hres : (attemptOnce c vq rIdx gIdx).res = .error e := by rw [ha]
      refine ⟨?_, e2, hE, Or.inr ?_⟩
      · rw [countRet_append, countRet_append, countRet_one_ret, countRet_sleep_block]
        omega
      · rcases hdisj with ⟨hn0, rfl⟩ | ⟨g2, hg1, hg2, hatt⟩
        · subst hn0
          refine ⟨gIdx, le_refl _, by omega, ?_⟩
          have hr0 : rIdx + (0 + 1 - 1) = rIdx := by omega
          rw [hr0]
          exact hres
        · rcases Nat.eq_zero_or_pos n with hn0 | hnpos
          · subst hn0
            have hbase : (runAttempts c vq 0 (attempt + 1) (rIdx + 1) gIdx e).2
                = .error (.exhausted e) := rfl
            rw [hbase] at h
            have hE2 : E = .exhausted e := by simpa using h.symm
            refine ⟨gIdx, le_refl _, by omega, ?_⟩
            have hr0 : rIdx + (0 + 1 - 1) = rIdx := by omega
            rw [hr0]
            have he23 : e2 = e := by
              rw [hE2] at hE
              simpa using hE.symm
            rw [he23]
            exact hres
          · refine ⟨g2, by omega, by omega, ?_⟩
            have hr0 : rIdx + 1 + (n - 1) = rIdx + (n + 1 - 1) := by omega
            rw [← hr0]
            exact hatt
    · rcases hov : outputValidate raw with e2 | va
      · rw [hov] at ha
        rw [runAttempts_fail_step c vq n attempt rIdx gIdx last _ e2 _ _ ha] at h ⊢
        obtain ⟨ihc, e3, hE, hdisj⟩ := ih (attempt + 1) (rIdx + 1) (gIdx + 1) e2 E h
        have hres : (attemptOnce c vq rIdx gIdx).res = .error e2 := by rw [ha]
        refine ⟨?_, e3, hE, Or.inr ?_⟩
        · rw [countRet_append, countRet_append, countRet_ret_gen, countRet_sleep_block]
          omega
        · rcases hdisj with ⟨hn0, rfl⟩ | ⟨g2, hg1, hg2, hatt⟩
          · subst hn0
            refine ⟨gIdx, le_refl _, by omega, ?_⟩
            have hr0 : rIdx + (0 + 1 - 1) = rIdx := by omega
            rw [hr0]
            exact hres
          · rcases Nat.eq_zero_or_pos n with hn0 | hnpos
            · subst hn0
              have hbase : (runAttempts c vq 0 (attempt + 1) (rIdx + 1) (gIdx + 1) e2).2
                  = .error (.exhausted e2) := rfl
              rw [hbase] at h
              have hE2 : E = .exhausted e2 := by simpa using h.symm
              refine ⟨gIdx, le_refl _, by omega, ?_⟩
              have hr0 : rIdx + (0 + 1 - 1) = rIdx := by omega
              rw [hr0]
              have he23 : e3 = e2 := by
                rw [hE2] at hE
                simpa using hE.symm
              rw [he23]
              exact hres
            · refine ⟨g2, by omega, by omega, ?_⟩
              have hr0 : rIdx + 1 + (n - 1) = rIdx + (n + 1 - 1) := by omega
              rw [← hr0]
              exact hatt
      · rw [hov] at ha
        rw [runAttempts_ok_step c vq n attempt rIdx gIdx last _ va _ _ ha] at h
        exact absurd h (by simp)
    · rw [runAttempts_fail_step c vq n attempt rIdx gIdx last _ e _ _ ha] at h ⊢
      obtain ⟨ihc, e3, hE, hdisj⟩ := ih (attempt + 1) (rIdx + 1) (gIdx + 1) e E h
      have hres : (attemptOnce c vq rIdx gIdx).res = .error e := by rw [ha]
      refine ⟨?_, e3, hE, Or.inr ?_⟩
      · rw [countRet_append, countRet_append, countRet_ret_gen, countRet_sleep_block]
        omega
      · rcases hdisj with ⟨hn0, rfl⟩ | ⟨g2, hg1, hg2, hatt⟩
        · subst hn0
          refine ⟨gIdx, le_refl _, by omega, ?_⟩
          have hr0 : rIdx + (0 + 1 - 1) = rIdx := by omega
          rw [hr0]
          exact hres
        · rcases Nat.eq_zero_or_pos n with hn0 | hnpos
          · subst hn0
            have hbase : (runAttempts c vq 0 (attempt + 1) (rIdx + 1) (gIdx + 1) e).2
                = .error (.exhausted e) := rfl
            rw [hbase] at h
            have hE2 : E = .exhausted e := by simpa using h.symm
            refine ⟨gIdx, le_refl _, by omega, ?_⟩
            have hr0 : rIdx + (0 + 1 - 1) = rIdx := by omega
            rw [hr0]
            have he23 : e3 = e := by
              rw [hE2] at hE
              simpa using hE.symm
            rw [he23]
            exact hres
          · refine ⟨g2, by omega, by omega, ?_⟩
            have hr0 : rIdx + 1 + (n - 1) = rIdx + (n + 1 - 1) := by omega
            rw [← hr0]
            exact hatt

/-- When retrieval always succeeds and generation always fails, every
remaining attempt invokes generation once and the run errors. -/
lemma runAttempts_allfail (c : Collab) (vq : List Char)
    (hg : ∀ i p, ∃ e, c.generate i p = .error e)
    (hr : ∀ i, ∃ docs, c.retrieve i vq 5 = .ok docs) :
    ∀ n attempt rIdx gIdx last,
      countGen (runAttempts c vq n attempt rIdx gIdx last).1 = n ∧
      ∃ e, (runAttempts c vq n attempt rIdx gIdx last).2 = .error e := by
  intro n
  induction n with
  | zero =>
    intro attempt rIdx gIdx last
    exact ⟨rfl, .exhausted last, rfl⟩
  | succ n ih =>
    intro attempt rIdx gIdx last
    obtain ⟨docs, hdocs⟩ := hr rIdx
    obtain ⟨e, he⟩ := hg gIdx (buildPrompt vq (assembleContext docs))
    have ha : attemptOnce c vq rIdx gIdx
        = ⟨[Ev.retrieveCall vq 5, Ev.generateCall (buildPrompt vq (assembleContext docs))],
           .error e, rIdx + 1, gIdx + 1⟩ := by
      simp [attemptOnce, hdocs, he]
    rw [runAttempts_fail_step c vq n attempt rIdx gIdx last _ e _ _ ha]
    obtain ⟨ihc, e2, ihe⟩ := ih (attempt + 1) (rIdx + 1) (gIdx + 1) e
    constructor
    · rw [countGen_append, countGen_append, countGen_ret_gen, countGen_sleep_block]
      omega
    · exact ⟨e2, ihe⟩

/-- Every event of a loop trace is a retrieval call with the validated
question and `k = 5`, a generation call whose prompt was built from the
validated question and some successfully retrieved documents, or a
sleep. -/
lemma runAttempts_mem (c : Collab) (vq : List Char) :
    ∀ n attempt rIdx gIdx last ev,
      ev ∈ (runAttempts c vq n attempt rIdx gIdx last).1 →
      ev = Ev.retrieveCall vq 5 ∨
      (∃ i docs, c.retrieve i vq 5 = .ok docs ∧
        ev = Ev.generateCall (buildPrompt vq (assembleContext docs))) ∨
      (∃ t, ev = Ev.sleep t) := by
  intro n
  induction n with
  | zero =>
    intro attempt rIdx gIdx last ev hmem
    exact absurd hmem (by simp [runAttempts])
  | succ n ih =>
    intro attempt rIdx gIdx last ev hmem
    have sleep_case : ∀ t : Nat,
        ev ∈ (if n = 0 then ([] : List Ev) else [Ev.sleep t]) →
        ev = Ev.retrieveCall vq 5 ∨
        (∃ i docs, c.retrieve i vq 5 = .ok docs ∧
          ev = Ev.generateCall (buildPrompt vq (assembleContext docs))) ∨
        (∃ t2, ev = Ev.sleep t2) := by
      intro t hmem2
      split at hmem2
      · exact absurd hmem2 (by simp)
      · simp only [List.mem_singleton] at hmem2
        exact Or.inr (Or.inr ⟨t, hmem2⟩)
    rcases attemptOnce_cases c vq rIdx gIdx with
      ⟨e, _, ha⟩ | ⟨docs, raw, hret, _, ha⟩ | ⟨docs, e, hret, _, ha⟩
    · rw [runAttempts_fail_step c vq n attempt rIdx gIdx last _ e _ _ ha] at hmem
      simp only [List.mem_append] at hmem
      rcases hmem with (hmem | hmem) | hmem
      · simp only [List.mem_singleton] at hmem
        exact Or.inl hmem
      · exact sleep_case _ hmem
      · exact ih (attempt + 1) (rIdx + 1) gIdx e ev hmem
    · rcases hov : outputValidate raw with e2 | va
      · rw [hov] at ha
        rw [runAttempts_fail_step c vq n attempt rIdx gIdx last _ e2 _ _ ha] at hmem
        simp only [List.mem_append] at hmem
        rcases hmem with (hmem | hmem) | hmem
        · simp only [List.mem_cons, List.mem_singleton] at hmem
          rcases hmem with hmem | hmem | hmem
          · exact Or.inl hmem
          · exact Or.inr (Or.inl ⟨rIdx, docs, hret, hmem⟩)
          · exact absurd hmem (by simp)
        · exact sleep_case _ hmem
        · exact ih (attempt + 1) (rIdx + 1) (gIdx + 1) e2 ev hmem
      · rw [hov] at ha
        rw [runAttempts_ok_step c vq n attempt rIdx gIdx last _ va _ _ ha] at hmem
        simp only [List.mem_cons, List.mem_singleton] at hmem
        rcases hmem with hmem | hmem | hmem
        · exact Or.inl hmem
        · exact Or.inr (Or.inl ⟨rIdx, docs, hret, hmem⟩)
        · exact absurd hmem (by simp)
    · rw [runAttempts_fail_step c vq n attempt rIdx gIdx last _ e _ _ ha] at hmem
      simp only [List.mem_append] at hmem
      rcases hmem with (hmem | hmem) | hmem
      · simp only [List.mem_cons, List.mem_singleton] at hmem
        rcases hmem with hmem | hmem | hmem
        · exact Or.inl hmem
        · exact Or.inr (Or.inl ⟨rIdx, docs, hret, hmem⟩)
        · exact absurd hmem (by simp)
      · exact sleep_case _ hmem
      · exact ih (attempt + 1) (rIdx + 1) (gIdx + 1) e ev hmem

/-- A list with positive length is not empty. -/
lemma isEmpty_false_of_length (l : List Char) (h : 1 ≤ l.length) :
    l.isEmpty = false := by
  cases l with
  | nil => simp at h
  | cons x l => rfl

/-- Stripping is idempotent. -/
lemma pyStrip_idem (q : List Char) : pyStrip (pyStrip q) = pyStrip q := by
  by_cases hdnil : List.dropWhile wsC (List.dropWhile wsC q).reverse = []
  · show pyStrip ((List.dropWhile wsC (List.dropWhile wsC q).reverse).reverse) = _
    rw [hdnil]
    show pyStrip [] = (List.dropWhile wsC (List.dropWhile wsC q).reverse).reverse
    rw [hdnil]
    rfl
  · have hhead : ∀ y ∈ ((List.dropWhile wsC (List.dropWhile wsC q).reverse).reverse).head?,
        wsC y = false := by
      intro y hy
      rw [List.head?_reverse] at hy
      have hsuff : List.dropWhile wsC (List.dropWhile wsC q).reverse
          <:+ (List.dropWhile wsC q).reverse := List.dropWhile_suffix wsC
      obtain ⟨w, hw⟩ := hsuff
      have hgl : ((List.dropWhile wsC q).reverse).getLast?
          = (List.dropWhile wsC (List.dropWhile wsC q).reverse).getLast? := by
        conv_lhs => rw [← hw]
        rw [List.getLast?_append]
        rcases hgl2 : (List.dropWhile wsC (List.dropWhile wsC q).reverse).getLast? with _ | z
        · rw [List.getLast?_eq_none_iff] at hgl2
          exact absurd hgl2 hdnil
        · rw [Option.or_some]
      rw [← hgl, List.getLast?_reverse] at hy
      have hmatch := List.head?_dropWhile_not wsC q
      rw [Option.mem_def.1 hy] at hmatch
      exact hmatch
    have h1 : List.dropWhile wsC
        ((List.dropWhile wsC (List.dropWhile wsC q).reverse).reverse)
        = (List.dropWhile wsC (List.dropWhile wsC q).reverse).reverse :=
      dropWhile_eq_self_of_head wsC _ hhead
    have h2 : List.dropWhile wsC (List.dropWhile wsC (List.dropWhile wsC q).reverse)
        = List.dropWhile wsC (List.dropWhile wsC q).reverse := by
      apply dropWhile_eq_self_of_head
      intro y hy
      have hmatch := List.head?_dropWhile_not wsC (List.dropWhile wsC q).reverse
      rw [Option.mem_def.1 hy] at hmatch
      exact hmatch
    show pyStrip ((List.dropWhile wsC (List.dropWhile wsC q).reverse).reverse) = _
    unfold pyStrip
    rw [h1, List.reverse_reverse, h2]

/-- Strings of ampersands contain no whitespace to strip. -/
lemma dropWhile_replicate_amp (n : Nat) :
    List.dropWhile wsC (List.replicate n '&') = List.replicate n '&' := by
  apply dropWhile_eq_self_of_head
  intro x hx
  cases n with
  | zero => simp at hx
  | succ n =>
    rw [List.replicate_succ, List.head?_cons] at hx
    simp only [Option.mem_def, Option.some.injEq] at hx
    subst hx
    rfl

/-- A string of ampersands is already stripped. -/
lemma pyStrip_replicate_amp (n : Nat) :
    pyStrip (List.replicate n '&') = List.replicate n '&' := by
  unfold pyStrip
  rw [dropWhile_replicate_amp, List.reverse_replicate, dropWhile_replicate_amp,
    List.reverse_replicate]

/-- Escaping a string of `n` ampersands yields `5 * n` characters. -/
lemma htmlEscape_replicate_amp_length (n : Nat) :
    (htmlEscape (List.replicate n '&')).length = 5 * n := by
  induction n with
  | zero => rfl
  | succ n ih =>
    rw [List.replicate_succ]
    show (escChar '&' ++ htmlEscape (List.replicate n '&')).length = 5 * (n + 1)
    rw [List.length_append, ih]
    have h5 : (escChar '&').length = 5 := rfl
    rw [h5]
    omega

/-- The 501-ampersand question passes input validation (length 501 is
within bounds and the pattern check runs before escaping). -/
lemma inputValidate_amp501 :
    inputValidate (List.replicate 501 '&')
      = .ok (htmlEscape (List.replicate 501 '&')) := by
  have h := inputValidate_ok_of (List.replicate 501 '&') ?h1 ?h2 ?h3 ?h4
  · rw [pyStrip_replicate_amp] at h
    exact h
  case h1 =>
    rw [pyStrip_replicate_amp]
    exact isEmpty_false_of_length _ (by rw [List.length_replicate]; omega)
  case h2 => rw [pyStrip_replicate_amp, List.length_replicate]; omega
  case h3 => rw [pyStrip_replicate_amp, List.length_replicate]; omega
  case h4 => rw [pyStrip_replicate_amp]; exact anyForbidden_replicate_amp 501

/-- A forbidden-pattern hit causes `InputValidator.validate` to raise. -/
lemma inputValidate_err_of_forbidden (q : List Char)
    (h : anyForbidden (pyStrip q) = true) :
    ∃ m, inputValidate q = .error (.invalidInput m) := by
  unfold inputValidate
  split_ifs with h1 h2 h3
  · exact ⟨_, rfl⟩
  · exact ⟨_, rfl⟩
  · exact ⟨_, rfl⟩
  · exact ⟨_, rfl⟩

/-- A match of one forbidden pattern makes the whole denylist match. -/
lemma anyForbidden_of_pattern (p : Pat) (hp : p ∈ FORBIDDEN_PATTERNS) (l : List Char)
    (h : hasMatch p.toks l = true) : anyForbidden l = true := by
  unfold anyForbidden
  rw [List.any_eq_true]
  exact ⟨p, hp, h⟩

/-- A collaborator whose retrieval always succeeds with no documents and
whose generation always fails. -/
def cFail : Collab :=
  ⟨fun _ _ _ => .ok [], fun _ _ => .error (.providerError "boom".toList)⟩

/-- A collaborator whose retrieval always succeeds with no documents and
whose generation always returns a fixed valid answer. -/
def cOk : Collab :=
  ⟨fun _ _ _ => .ok [], fun _ _ => .ok "Promtior offers AI consulting services.".toList⟩

/-- C1: for every question that passes input validation, `execute`
performs at most 3 attempts; the backoff sleeps are exactly `2 ^ attempt`
seconds after each failed non-final attempt (1s then 2s) and none after
the final attempt; on success the trace ends at the generation call whose
output-validated answer is returned, with no further attempt; and when
retrieval always succeeds but generation always fails, generation has
been invoked exactly 3 times and `execute` raises. -/
theorem c1_retry_policy (c : Collab) (q vq : List Char)
    (hv : inputValidate q = .ok vq) :
    countRet (execute c q).1 ≤ 3 ∧
    sleepList (execute c q).1
      = (List.range (countRet (execute c q).1 - 1)).map (fun i => 2 ^ i) ∧
    (∀ a, (execute c q).2 = .ok a →
      ∃ p raw, (execute c q).1.getLast? = some (Ev.generateCall p) ∧
        c.generate (countGen (execute c q).1 - 1) p = .ok raw ∧
        outputValidate raw = .ok a) ∧
    ((∀ i p, ∃ e, c.generate i p = .error e) →
      (∀ i, ∃ docs, c.retrieve i vq 5 = .ok docs) →
      countGen (execute c q).1 = 3 ∧ ∃ E, (execute c q).2 = .error E) := by
  have hex : execute c q = runAttempts c vq 3 0 0 0 RagError.pyNone := by
    simp only [execute, maxRetries, hv]
  rw [hex]
  refine ⟨runAttempts_countRet_le c vq 3 0 0 0 _, ?_, ?_, ?_⟩
  · rw [runAttempts_sleeps c vq 3 0 0 0 RagError.pyNone]
    apply List.map_congr_left
    intro i _
    rw [Nat.zero_add]
  · intro a ha
    have h := runAttempts_success c vq 3 0 0 0 RagError.pyNone a ha
    simpa using h
  · intro hg hr
    obtain ⟨hc, E, hE⟩ := runAttempts_allfail c vq hg hr 3 0 0 0 RagError.pyNone
    exact ⟨hc, E, hE⟩

/-- Witness for C1 at a concrete collaborator whose generation always
fails: execute makes exactly 3 generation calls and raises. -/
theorem c1_retry_policy_witness :
    countGen (execute cFail "What is Promtior".toList).1 = 3 ∧
    ∃ E, (execute cFail "What is Promtior".toList).2 = .error E :=
  (c1_retry_policy cFail "What is Promtior".toList "What is Promtior".toList
      rfl).2.2.2
    (fun _ _ => ⟨.providerError "boom".toList, rfl⟩)
    (fun _ => ⟨[], rfl⟩)

/-- C2: after input validation passes, `execute` can only raise the
exhaustion error; it does so after exactly 3 attempts, wrapping the error
recorded by the final attempt (so no failure inside the loop escapes
unwrapped and none is swallowed). -/
theorem c2_exhaustion_carries_last_error (c : Collab) (q vq : List Char)
    (hv : inputValidate q = .ok vq) :
    ∀ E, (execute c q).2 = .error E →
      countRet (execute c q).1 = 3 ∧
      ∃ e g, E = .exhausted e ∧ g ≤ 2 ∧
        (attemptOnce c vq 2 g).res = .error e := by
  intro E hE
  have hex : execute c q = runAttempts c vq 3 0 0 0 RagError.pyNone := by
    simp only [execute, maxRetries, hv]
  rw [hex] at hE ⊢
  obtain ⟨hc, e, hEE, hdisj⟩ := runAttempts_error c vq 3 0 0 0 RagError.pyNone E hE
  refine ⟨hc, e, ?_⟩
  rcases hdisj with ⟨h30, _⟩ | ⟨g2, hg1, hg2, hatt⟩
  · exact absurd h30 (by omega)
  · exact ⟨g2, hEE, by omega, by simpa using hatt⟩

/-- Witness for C2 at a concrete always-failing collaborator. -/
theorem c2_exhaustion_witness :
    countRet (execute cFail "What is Promtior".toList).1 = 3 ∧
    ∃ e g,
      RagError.exhausted (.providerError "boom".toList) = .exhausted e ∧ g ≤ 2 ∧
      (attemptOnce cFail "What is Promtior".toList 2 g).res = .error e :=
  c2_exhaustion_carries_last_error cFail "What is Promtior".toList
    "What is Promtior".toList rfl
    (RagError.exhausted (.providerError "boom".toList)) rfl

/-- Counterexample to C3: the code retrieves inside the retry loop, so
with an always-failing generator the retrieval capability is invoked 3
times in one execution, not exactly once. -/
theorem c3_counterexample :
    countRet (execute cFail "What services does Promtior offer".toList).1 = 3 ∧
    countRet (execute cFail "What services does Promtior offer".toList).1 ≠ 1 := by
  have h : countRet (execute cFail "What services does Promtior offer".toList).1 = 3 := rfl
  exact ⟨h, by omega⟩

/-- C3 amended: retrieval is invoked once per attempt (1 to 3 times per
validated execution), always with the validated question and fixed
`k = 5`; each generation call's prompt is built from the documents of a
retrieval call of the same execution; and when retrieval is deterministic
every generation call uses the same prompt. -/
theorem c3_amended_retrieval_per_attempt (c : Collab) (q vq : List Char)
    (hv : inputValidate q = .ok vq) :
    1 ≤ countRet (execute c q).1 ∧ countRet (execute c q).1 ≤ 3 ∧
    (∀ ev ∈ (execute c q).1, ∀ s k, ev = Ev.retrieveCall s k → s = vq ∧ k = 5) ∧
    (∀ p, Ev.generateCall p ∈ (execute c q).1 →
      ∃ i docs, c.retrieve i vq 5 = .ok docs ∧
        p = buildPrompt vq (assembleContext docs)) ∧
    ((∀ i j, c.retrieve i vq 5 = c.retrieve j vq 5) →
      ∀ p p2, Ev.generateCall p ∈ (execute c q).1 →
        Ev.generateCall p2 ∈ (execute c q).1 → p = p2) := by
  have hex : execute c q = runAttempts c vq 3 0 0 0 RagError.pyNone := by
    simp only [execute, maxRetries, hv]
  rw [hex]
  have hmem := runAttempts_mem c vq 3 0 0 0 RagError.pyNone
  have hgen : ∀ p, Ev.generateCall p ∈ (runAttempts c vq 3 0 0 0 RagError.pyNone).1 →
      ∃ i docs, c.retrieve i vq 5 = .ok docs ∧
        p = buildPrompt vq (assembleContext docs) := by
    intro p hp
    rcases hmem (Ev.generateCall p) hp with h | ⟨i, docs, hret, hcall⟩ | ⟨t, hsl⟩
    · exact absurd h (by simp)
    · have hpe : p = buildPrompt vq (assembleContext docs) := by
        injection hcall
      exact ⟨i, docs, hret, hpe⟩
    · exact absurd hsl (by simp)
  refine ⟨runAttempts_countRet_pos c vq 3 0 0 0 RagError.pyNone (by omega),
    runAttempts_countRet_le c vq 3 0 0 0 _, ?_, hgen, ?_⟩
  · intro ev hev s k hevr
    subst hevr
    rcases hmem (Ev.retrieveCall s k) hev with h | ⟨i, docs, _, hcall⟩ | ⟨t, hsl⟩
    · have h1 : s = vq := by injection h
      have h2 : k = 5 := by injection h
      exact ⟨h1, h2⟩
    · exact absurd hcall (by simp)
    · exact absurd hsl (by simp)
  · intro hconst p p2 hp hp2
    obtain ⟨i, docs, hret, hpe⟩ := hgen p hp
    obtain ⟨j, docs2, hret2, hpe2⟩ := hgen p2 hp2
    have hdocs : docs = docs2 := by
      have := hconst i j
      rw [hret, hret2] at this
      injection this
    rw [hpe, hpe2, hdocs]

/-- Witness for the amended C3 at a concrete collaborator. -/
theorem c3_amended_witness :
    1 ≤ countRet (execute cFail "What is Promtior".toList).1 :=
  (c3_amended_retrieval_per_attempt cFail "What is Promtior".toList
    "What is Promtior".toList rfl).1

/-- C4: a question that fails input validation (empty or whitespace-only
strip, stripped length below 3 or above 2000, or a forbidden-pattern
match) makes `execute` raise the input-validation error immediately, with
an empty trace: zero attempts, zero retrieval calls, zero generation
calls. -/
theorem c4_invalid_input_short_circuit (c : Collab) (q : List Char)
    (h : (pyStrip q).isEmpty = true ∨ (pyStrip q).length < 3 ∨
      2000 < (pyStrip q).length ∨ anyForbidden (pyStrip q) = true) :
    ∃ m, execute c q = ([], .error (.invalidInput m)) := by
  have herr : ∃ m, inputValidate q = .error (.invalidInput m) := by
    unfold inputValidate
    split_ifs with h1 h2 h3 h4
    · exact ⟨_, rfl⟩
    · exact ⟨_, rfl⟩
    · exact ⟨_, rfl⟩
    · exact ⟨_, rfl⟩
    · exfalso
      simp only [Bool.or_eq_true, not_or, Bool.not_eq_true] at h1
      rcases h with h | h | h | h
      · rw [h1.2] at h
        exact Bool.false_ne_true h
      · omega
      · omega
      · exact h4 h
  obtain ⟨m, hm⟩ := herr
  refine ⟨m, ?_⟩
  simp only [execute, hm]

/-- Witness for C4: the two-character question is rejected with no
collaborator call. -/
theorem c4_short_circuit_witness :
    ∃ m, execute cOk "ab".toList = ([], .error (.invalidInput m)) :=
  c4_invalid_input_short_circuit cOk "ab".toList (Or.inr (Or.inl (by decide)))

/-- No pattern fires exactly when the first-match search returns nothing. -/
lemma firstHallucination_none_iff (a : List Char) :
    firstHallucination a = none ↔ anyHallucination a = false := by
  unfold firstHallucination anyHallucination
  rw [Option.map_eq_none', List.find?_eq_none, List.any_eq_false]

/-- A hallucination match in the stripped answer is a match in the full
answer. -/
lemma anyHallucination_pyStrip (a : List Char)
    (h : anyHallucination (pyStrip a) = true) : anyHallucination a = true := by
  unfold anyHallucination at h ⊢
  rw [List.any_eq_true] at h ⊢
  obtain ⟨p, hp, hm⟩ := h
  exact ⟨p, hp, hasMatch_pyStrip p.toks a hm⟩

/-- C5: `OutputValidator.validate` raises exactly when the answer is
empty or whitespace-only, its trimmed length is below 5, or a
hallucination pattern matches (case-insensitively) somewhere in the
answer; otherwise it returns the trimmed answer, which is therefore
non-empty, at least 5 characters long, and free of hallucination
patterns. -/
theorem c5_output_validator (a : List Char) :
    ((∃ m, outputValidate a = .error (.invalidOutput m)) ↔
      ((pyStrip a).isEmpty = true ∨ (pyStrip a).length < 5 ∨
        anyHallucination a = true)) ∧
    (∀ r, outputValidate a = .ok r →
      r = pyStrip a ∧ r.isEmpty = false ∧ 5 ≤ r.length ∧
        anyHallucination r = false) := by
  constructor
  · constructor
    · rintro ⟨m, hm⟩
      unfold outputValidate at hm
      split_ifs at hm with h1 h2
      · simp only [Bool.or_eq_true] at h1
        rcases h1 with h1 | h1
        · left
          cases a with
          | nil => rfl
          | cons x l => simp at h1
        · exact Or.inl h1
      · exact Or.inr (Or.inl h2)
      · rcases hfh : firstHallucination a with _ | src
        · rw [hfh] at hm
          exact absurd hm (by simp)
        · right; right
          cases hany : anyHallucination a
          · rw [(firstHallucination_none_iff a).2 hany] at hfh
            exact Option.noConfusion hfh
          · rfl
    · intro h
      unfold outputValidate
      split_ifs with h1 h2
      · exact ⟨_, rfl⟩
      · exact ⟨_, rfl⟩
      · rcases hfh : firstHallucination a with _ | src
        · exfalso
          simp only [Bool.or_eq_true, not_or, Bool.not_eq_true] at h1
          have hany := (firstHallucination_none_iff a).1 hfh
          rcases h with h | h | h
          · rw [h1.2] at h
            exact Bool.false_ne_true h
          · omega
          · rw [hany] at h
            exact Bool.false_ne_true h
        · exact ⟨_, rfl⟩
  · intro r hr
    unfold outputValidate at hr
    split_ifs at hr with h1 h2
    rcases hfh : firstHallucination a with _ | src
    · rw [hfh] at hr
      have hrr : pyStrip a = r := by simpa using hr
      have hany : anyHallucination a = false := (firstHallucination_none_iff a).1 hfh
      simp only [Bool.or_eq_true, not_or, Bool.not_eq_true] at h1
      refine ⟨hrr.symm, ?_, ?_, ?_⟩
      · rw [← hrr]
        exact h1.2
      · rw [← hrr]
        omega
      · rw [← hrr]
        cases hres : anyHallucination (pyStrip a)
        · rfl
        · exact absurd (anyHallucination_pyStrip a hres) (by rw [hany]; simp)
    · rw [hfh] at hr
      exact absurd hr (by simp)

/-- Witness for C5 at the spec's example answer, which validates to
itself. -/
theorem c5_output_validator_witness :
    ("Promtior was founded in 2023.".toList : List Char)
        = pyStrip "Promtior was founded in 2023.".toList ∧
    ("Promtior was founded in 2023.".toList : List Char).isEmpty = false ∧
    5 ≤ ("Promtior was founded in 2023.".toList : List Char).length ∧
    anyHallucination "Promtior was founded in 2023.".toList = false :=
  (c5_output_validator "Promtior was founded in 2023.".toList).2
    "Promtior was founded in 2023.".toList rfl

/-- Counterexample to C6: the length bound is checked before HTML
escaping, so 501 ampersands (length 501, within bounds) validate to a
2505-character string, far above MAX_LENGTH = 2000. -/
theorem c6_counterexample :
    inputValidate (List.replicate 501 '&')
        = .ok (htmlEscape (List.replicate 501 '&')) ∧
    2000 < (htmlEscape (List.replicate 501 '&')).length := by
  refine ⟨inputValidate_amp501, ?_⟩
  rw [htmlEscape_replicate_amp_length]
  omega

/-- C6 amended: the accepted string is the HTML-escape of the trimmed
input; the trimmed input (not the returned string) has length within
[3, 2000] and no forbidden pattern; the returned string still has no
forbidden pattern and length at least 3, but its length may exceed
2000. -/
theorem c6_amended_escape_properties (q r : List Char)
    (h : inputValidate q = .ok r) :
    r = htmlEscape (pyStrip q) ∧
    3 ≤ (pyStrip q).length ∧ (pyStrip q).length ≤ 2000 ∧
    anyForbidden (pyStrip q) = false ∧
    anyForbidden r = false ∧ 3 ≤ r.length := by
  obtain ⟨hr, hne, h3, h2000, hforb⟩ := inputValidate_ok_inv q r h
  subst hr
  refine ⟨rfl, h3, h2000, hforb, anyForbidden_htmlEscape _ hforb, ?_⟩
  calc 3 ≤ (pyStrip q).length := h3
    _ ≤ (htmlEscape (pyStrip q)).length := htmlEscape_length_ge _

/-- Witness for the amended C6 at a concrete accepted question. -/
theorem c6_amended_witness :
    anyForbidden "abc".toList = false :=
  (c6_amended_escape_properties "abc".toList "abc".toList rfl).2.2.2.2.1

/-- Counterexample to C7: 501 ampersands pass validation, but their
escaped result (2505 characters) fails re-validation with the length
check. -/
theorem c7_counterexample :
    inputValidate (List.replicate 501 '&')
        = .ok (htmlEscape (List.replicate 501 '&')) ∧
    inputValidate (htmlEscape (List.replicate 501 '&'))
        = .error (.invalidInput "Question too long (max 2000 chars)".toList) := by
  refine ⟨inputValidate_amp501, ?_⟩
  have hne : List.replicate 501 '&' ≠ ([] : List Char) := by
    intro hcontra
    have := congrArg List.length hcontra
    rw [List.length_replicate] at this
    simp at this
  have hstrip : pyStrip (htmlEscape (List.replicate 501 '&'))
      = htmlEscape (List.replicate 501 '&') :=
    pyStrip_htmlEscape _ (pyStrip_replicate_amp 501) hne
  have hlen : (htmlEscape (List.replicate 501 '&')).length = 2505 := by
    rw [htmlEscape_replicate_amp_length]
  unfold inputValidate
  rw [hstrip]
  rw [if_neg ?hc1, if_neg ?hc2, if_pos ?hc3]
  case hc1 =>
    intro hcontra
    rw [Bool.or_self] at hcontra
    rw [isEmpty_false_of_length _ (by omega)] at hcontra
    exact Bool.false_ne_true hcontra
  case hc2 => omega
  case hc3 => omega

/-- C7 amended: re-validating the escaped result does not raise provided
its (possibly inflated) length still fits the 2000-character bound; the
length-2000 boundary is the only way re-validation can fail. -/
theorem c7_amended_revalidation (q r : List Char)
    (h : inputValidate q = .ok r) (hlen : r.length ≤ 2000) :
    inputValidate r = .ok (htmlEscape r) := by
  obtain ⟨hr, hne, h3, h2000, hforb⟩ := inputValidate_ok_inv q r h
  have htne : pyStrip q ≠ [] := by
    intro hcontra
    rw [hcontra] at h3
    simp at h3
  have hrlen : 3 ≤ r.length := by
    rw [hr]
    calc 3 ≤ (pyStrip q).length := h3
      _ ≤ (htmlEscape (pyStrip q)).length := htmlEscape_length_ge _
  have hstrip : pyStrip r = r := by
    rw [hr]
    exact pyStrip_htmlEscape _ (pyStrip_idem q) htne
  have hres := inputValidate_ok_of r ?c1 ?c2 ?c3 ?c4
  · rw [hstrip] at hres
    exact hres
  case c1 =>
    rw [hstrip]
    exact isEmpty_false_of_length _ (by omega)
  case c2 => rw [hstrip]; omega
  case c3 => rw [hstrip]; omega
  case c4 =>
    rw [hstrip, hr]
    exact anyForbidden_htmlEscape _ hforb

/-- Witness for the amended C7 at a concrete accepted question. -/
theorem c7_amended_witness :
    inputValidate "abc".toList = .ok (htmlEscape "abc".toList) :=
  c7_amended_revalidation "abc".toList "abc".toList rfl (by decide)

/-- C8: the assembled context joins document contents in order with the
two-newline separator (no deduplication, no truncation); retrieving zero
documents yields the empty context, and the pipeline still proceeds to
prompt construction and generation instead of failing at retrieval. -/
theorem c8_context_assembly :
    assembleContext [] = [] ∧
    (∀ d ds, assembleContext (d :: ds)
      = d.page_content
          ++ (if ds = [] then [] else ('\n' :: '\n' :: []) ++ assembleContext ds)) ∧
    (∀ c q vq, inputValidate q = .ok vq → c.retrieve 0 vq 5 = .ok [] →
      Ev.generateCall (buildPrompt vq []) ∈ (execute c q).1) := by
  refine ⟨rfl, ?_, ?_⟩
  · intro d ds
    cases ds with
    | nil => simp [assembleContext, List.intercalate]
    | cons d2 ds =>
      simp only [assembleContext, List.map_cons, List.intercalate, List.intersperse,
        if_neg (List.cons_ne_nil d2 ds)]
      rfl
  · intro c q vq hv hret
    have hex : execute c q = runAttempts c vq 3 0 0 0 RagError.pyNone := by
      simp only [execute, maxRetries, hv]
    rw [hex]
    have hctx : assembleContext ([] : List Doc) = [] := rfl
    rcases hg : c.generate 0 (buildPrompt vq (assembleContext [])) with e | raw
    · have ha : attemptOnce c vq 0 0 = ⟨[Ev.retrieveCall vq 5,
          Ev.generateCall (buildPrompt vq (assembleContext []))], .error e, 1, 1⟩ := by
        simp [attemptOnce, hret, hg]
      rw [runAttempts_fail_step c vq 2 0 0 0 RagError.pyNone _ e _ _ ha]
      rw [← hctx]
      simp
    · rcases hov : outputValidate raw with e2 | va
      · have ha : attemptOnce c vq 0 0 = ⟨[Ev.retrieveCall vq 5,
            Ev.generateCall (buildPrompt vq (assembleContext []))], .error e2, 1, 1⟩ := by
          simp [attemptOnce, hret, hg, hov]
        rw [runAttempts_fail_step c vq 2 0 0 0 RagError.pyNone _ e2 _ _ ha]
        rw [← hctx]
        simp
      · have ha : attemptOnce c vq 0 0 = ⟨[Ev.retrieveCall vq 5,
            Ev.generateCall (buildPrompt vq (assembleContext []))], .ok va, 1, 1⟩ := by
          simp [attemptOnce, hret, hg, hov]
        rw [runAttempts_ok_step c vq 2 0 0 0 RagError.pyNone _ va _ _ ha]
        rw [← hctx]
        simp

/-- Witness for C8: with an empty retrieval result the generation call
for the empty-context prompt appears in the trace. -/
theorem c8_context_assembly_witness :
    Ev.generateCall (buildPrompt "What is Promtior".toList [])
      ∈ (execute cOk "What is Promtior".toList).1 :=
  c8_context_assembly.2.2 cOk "What is Promtior".toList "What is Promtior".toList
    rfl rfl

/-- Counterexample to C9: an input-validation failure (question of
length 2) is answered with HTTP 500, not a 422/400-class status, and the
internal error message is embedded in the detail string. -/
theorem c9_counterexample :
    askQuestion cOk "ab".toList
      = .httpError 500
          ("Error processing question: Question too short (min 3 chars)".toList) ∧
    (500 : Nat) ≠ 422 ∧ (500 : Nat) ≠ 400 := by
  refine ⟨rfl, by omega, by omega⟩

/-- C9 amended: on success the route returns the
question/answer/status-success payload, but EVERY failure — input
validation, output validation, or exhausted retries alike — is mapped to
HTTP 500 with detail "Error processing question: " followed by the
exception message, so callers cannot distinguish bad input from a system
failure by status code. -/
theorem c9_amended_http_mapping (c : Collab) (q : List Char) :
    (∀ a, (execute c q).2 = .ok a → askQuestion c q = .success q a) ∧
    (∀ e, (execute c q).2 = .error e →
      askQuestion c q
        = .httpError 500 ("Error processing question: ".toList ++ errMessage e)) := by
  constructor
  · intro a ha
    unfold askQuestion
    rw [ha]
  · intro e he
    unfold askQuestion
    rw [he]

/-- Witness for the amended C9: a successful pipeline call produces the
success payload. -/
theorem c9_amended_witness :
    askQuestion cOk "What is Promtior".toList
      = .success "What is Promtior".toList
          "Promtior offers AI consulting services.".toList :=
  (c9_amended_http_mapping cOk "What is Promtior".toList).1
    "Promtior offers AI consulting services.".toList rfl

/-- C10: the forbidden-pattern check runs case-insensitively over
substrings anywhere in the trimmed, unescaped question, so validation
rejects every question whose trimmed form contains `import` followed by
whitespace, `exec`/`eval` followed by optional whitespace and an opening
parenthesis, `javascript:`, `<script`, or `on` followed by word
characters, optional whitespace and `=` — including natural-language
questions such as "How do I import data?" and one containing
"version2=stable". -/
theorem c10_forbidden_rejection (q : List Char) :
    ((∃ u s w v, pyStrip q = u ++ s ++ w :: v
        ∧ s.map asciiLower = "import".toList ∧ wsC w = true) →
      ∃ m, inputValidate q = .error (.invalidInput m)) ∧
    ((∃ u s sp v, pyStrip q = u ++ s ++ (sp ++ '(' :: v)
        ∧ (s.map asciiLower = "exec".toList ∨ s.map asciiLower = "eval".toList)
        ∧ sp.all wsC = true) →
      ∃ m, inputValidate q = .error (.invalidInput m)) ∧
    ((∃ u s v, pyStrip q = u ++ s ++ v ∧ s.map asciiLower = "javascript:".toList) →
      ∃ m, inputValidate q = .error (.invalidInput m)) ∧
    ((∃ u s v, pyStrip q = u ++ s ++ v ∧ s.map asciiLower = "<script".toList) →
      ∃ m, inputValidate q = .error (.invalidInput m)) ∧
    ((∃ u x1 x2 ws sp v, pyStrip q = u ++ x1 :: x2 :: (ws ++ sp ++ '=' :: v)
        ∧ asciiLower x1 = 'o' ∧ asciiLower x2 = 'n' ∧ ws ≠ [] ∧ ws.all wdC = true
        ∧ sp.all wsC = true) →
      ∃ m, inputValidate q = .error (.invalidInput m)) ∧
    (∃ m, inputValidate "How do I import data?".toList
        = .error (.invalidInput m)) ∧
    (∃ m, inputValidate "Is version2=stable yet?".toList
        = .error (.invalidInput m)) := by
  refine ⟨?_, ?_, ?_, ?_, ?_, ?_, ?_⟩
  · rintro ⟨u, s, w, v, ht, hs, hw⟩
    apply inputValidate_err_of_forbidden
    apply anyForbidden_of_pattern patImport (by simp [FORBIDDEN_PATTERNS])
    have hm : matchToks patImport.toks (s ++ w :: v) = true := by
      show matchToks (litToks "import".toList ++ [Tok.plus wsC]) (s ++ w :: v) = true
      rw [matchToks_litToks "import".toList [Tok.plus wsC] s (w :: v) hs]
      show (wsC w && matchStar wsC (fun l => matchToks [] l) v) = true
      rw [hw, matchStar_of_k wsC _ v rfl, Bool.and_true]
    refine hasMatch_of_suffix _ (s ++ w :: v) _ ⟨u, ?_⟩ hm
    rw [← List.append_assoc, ht]
  · rintro ⟨u, s, sp, v, ht, hs, hsp⟩
    apply inputValidate_err_of_forbidden
    have hk : matchToks [Tok.star wsC, Tok.lit '('] (sp ++ '(' :: v) = true := by
      show matchStar wsC (fun l => matchToks [Tok.lit '('] l) (sp ++ '(' :: v) = true
      exact matchStar_all wsC _ sp ('(' :: v) hsp rfl
    rcases hs with hs | hs
    · apply anyForbidden_of_pattern patExec (by simp [FORBIDDEN_PATTERNS])
      have hm : matchToks patExec.toks (s ++ (sp ++ '(' :: v)) = true := by
        show matchToks (litToks "exec".toList ++ [Tok.star wsC, Tok.lit '('])
          (s ++ (sp ++ '(' :: v)) = true
        rw [matchToks_litToks "exec".toList [Tok.star wsC, Tok.lit '('] s
          (sp ++ '(' :: v) hs]
        exact hk
      refine hasMatch_of_suffix _ (s ++ (sp ++ '(' :: v)) _ ⟨u, ?_⟩ hm
      rw [← List.append_assoc, ht]
    · apply anyForbidden_of_pattern patEval (by simp [FORBIDDEN_PATTERNS])
      have hm : matchToks patEval.toks (s ++ (sp ++ '(' :: v)) = true := by
        show matchToks (litToks "eval".toList ++ [Tok.star wsC, Tok.lit '('])
          (s ++ (sp ++ '(' :: v)) = true
        rw [matchToks_litToks "eval".toList [Tok.star wsC, Tok.lit '('] s
          (sp ++ '(' :: v) hs]
        exact hk
      refine hasMatch_of_suffix _ (s ++ (sp ++ '(' :: v)) _ ⟨u, ?_⟩ hm
      rw [← List.append_assoc, ht]
  · rintro ⟨u, s, v, ht, hs⟩
    apply inputValidate_err_of_forbidden
    apply anyForbidden_of_pattern patJs (by simp [FORBIDDEN_PATTERNS])
    have hm : matchToks patJs.toks (s ++ v) = true := by
      show matchToks (litToks "javascript:".toList) (s ++ v) = true
      rw [show litToks "javascript:".toList = litToks "javascript:".toList ++ [] from
        (List.append_nil _).symm]
      rw [matchToks_litToks "javascript:".toList [] s v hs]
      rfl
    refine hasMatch_of_suffix _ (s ++ v) _ ⟨u, ?_⟩ hm
    rw [← List.append_assoc, ht]
  · rintro ⟨u, s, v, ht, hs⟩
    apply inputValidate_err_of_forbidden
    apply anyForbidden_of_pattern patScript (by simp [FORBIDDEN_PATTERNS])
    have hm : matchToks patScript.toks (s ++ v) = true := by
      show matchToks (litToks "<script".toList) (s ++ v) = true
      rw [show litToks "<script".toList = litToks "<script".toList ++ [] from
        (List.append_nil _).symm]
      rw [matchToks_litToks "<script".toList [] s v hs]
      rfl
    refine hasMatch_of_suffix _ (s ++ v) _ ⟨u, ?_⟩ hm
    rw [← List.append_assoc, ht]
  · rintro ⟨u, x1, x2, ws, sp, v, ht, hx1, hx2, hwne, hws, hsp⟩
    apply inputValidate_err_of_forbidden
    apply anyForbidden_of_pattern patOn (by simp [FORBIDDEN_PATTERNS])
    obtain ⟨w0, ws2, rfl⟩ : ∃ w0 ws2, ws = w0 :: ws2 := by
      cases ws with
      | nil => exact absurd rfl hwne
      | cons w0 ws2 => exact ⟨w0, ws2, rfl⟩
    rw [List.all_cons, Bool.and_eq_true] at hws
    have hm : matchToks patOn.toks (x1 :: x2 :: (w0 :: ws2 ++ sp ++ '=' :: v)) = true := by
      show ((asciiLower x1 == 'o') &&
        ((asciiLower x2 == 'n') &&
          (wdC w0 && matchStar wdC
            (fun l => matchToks [Tok.star wsC, Tok.lit '='] l)
            (ws2 ++ sp ++ '=' :: v)))) = true
      rw [hx1, hx2, hws.1]
      have hstar : matchStar wdC
          (fun l => matchToks [Tok.star wsC, Tok.lit '='] l)
          (ws2 ++ (sp ++ '=' :: v)) = true := by
        apply matchStar_all wdC _ ws2 (sp ++ '=' :: v) hws.2
        show matchStar wsC (fun l => matchToks [Tok.lit '='] l) (sp ++ '=' :: v) = true
        exact matchStar_all wsC _ sp ('=' :: v) hsp rfl
      rw [List.append_assoc]
      rw [hstar]
      rfl
    refine hasMatch_of_suffix _ (x1 :: x2 :: (w0 :: ws2 ++ sp ++ '=' :: v)) _ ⟨u, ?_⟩ hm
    rw [ht]
  · exact ⟨_, rfl⟩
  · exact ⟨_, rfl⟩

/-- Witness for C10 at a concrete decomposition exhibiting `import`
followed by whitespace in a natural-language question. -/
theorem c10_forbidden_rejection_witness :
    ∃ m, inputValidate "please import this".toList = .error (.invalidInput m) :=
  (c10_forbidden_rejection "please import this".toList).1
    ⟨"please ".toList, "import".toList, ' ', "this".toList,
      by decide, by decide, by decide⟩
